import Mathlib

/-!
Verification development for the bitcoin-tui repository.

The development shallowly embeds the core logic of the program:
  * `src/json.hpp`   — the JSON value engine (tagged value, parser, serializer,
    typed accessors);
  * `src/rpc_client.cpp` — the HTTP status handling of the RPC transport;
  * `src/main.cpp`   — the polling coordinator's two-phase commit, the
    transaction/block lookup fallback chain, the miner-tag extraction and the
    search-box query validation.

Modelling conventions:
  * A C++ `std::string` is a byte string; it is modelled as `List Char` where
    every `Char` stands for one byte (values below 256).
  * `int64_t` is modelled as `Int` together with an explicit range side
    condition (`intFits`) where the width matters.
  * `double` is modelled as an abstract type parameter `F` together with the
    operations the code uses on it (finiteness test, the 17-significant-digit
    printer of `dump_impl`, the `std::stod` reader, arithmetic).  Theorems
    that depend on the printer/reader take the printer/reader round-trip
    contract — which the source relies on (`setprecision(17)`) — as an
    explicit hypothesis.
  * C++ exceptions are modelled with `Except`; each `throw` site gets its own
    error constructor.
-/

/-- A byte string: each `Char` stands for one byte of a C++ `std::string`. -/
abbrev Str := List Char

/-- Byte 34, the double-quote character. -/
def chQuote : Char := Char.ofNat 34

/-- Byte 92, the backslash character. -/
def chBackslash : Char := Char.ofNat 92

/-- Byte 123, the opening curly brace. -/
def chLBrace : Char := Char.ofNat 123

/-- Byte 125, the closing curly brace. -/
def chRBrace : Char := Char.ofNat 125

/-- Byte 10, the newline character. -/
def chNL : Char := Char.ofNat 10

/-- The UTF-8 byte sequence of the em dash used as a placeholder by the TUI
(the C++ literal is a 3-byte string). -/
def emDash : Str := [Char.ofNat 0xE2, Char.ofNat 0x80, Char.ofNat 0x94]

/-- Kind tags of `json::Kind` in `json.hpp`. -/
inductive JKind where
  | null | bool | int | float | str | arr | obj
deriving DecidableEq, Repr

/-- The tagged JSON value of `json.hpp`, parameterised by the model `F` of the
C++ `double`.  `Object` (`std::map<std::string, json>`) is modelled as an
association list kept sorted by the map's key order. -/
inductive Jval (F : Type) where
  | null : Jval F
  | bool (b : Bool) : Jval F
  | int (i : Int) : Jval F
  | float (f : F) : Jval F
  | str (s : Str) : Jval F
  | arr (elems : List (Jval F)) : Jval F
  | obj (members : List (Str × Jval F)) : Jval F

variable {F : Type}

/-- The kind tag of a value (the `kind_` field). -/
def kindOf : Jval F → JKind
  | .null => .null
  | .bool _ => .bool
  | .int _ => .int
  | .float _ => .float
  | .str _ => .str
  | .arr _ => .arr
  | .obj _ => .obj

/-- Strict byte-wise lexicographic order on byte strings: the key order of
`std::map<std::string, json>` (`char_traits<char>` compares as
`unsigned char`). -/
def strLt : Str → Str → Bool
  | [], [] => false
  | [], _ :: _ => true
  | _ :: _, [] => false
  | a :: as, b :: bs =>
    if a.toNat < b.toNat then true
    else if b.toNat < a.toNat then false
    else strLt as bs

/-- Key equivalence of the map order (neither key is strictly below the
other). -/
def strEqb (a b : Str) : Bool := !(strLt a b) && !(strLt b a)

/-- Ordered insert-or-assign into the sorted association list: the effect of
`oval_[key] = v` on a `std::map`.  Equal keys are replaced (last occurrence
wins). -/
def mapInsert (k : Str) (v : Jval F) : List (Str × Jval F) → List (Str × Jval F)
  | [] => [(k, v)]
  | (k0, v0) :: rest =>
    if strLt k k0 then (k, v) :: (k0, v0) :: rest
    else if strLt k0 k then (k0, v0) :: mapInsert k v rest
    else (k, v) :: rest

/-- Lookup in the association list: the effect of `oval_.find(key)`. -/
def mapFind (k : Str) : List (Str × Jval F) → Option (Jval F)
  | [] => none
  | (k0, v0) :: rest => if strEqb k k0 then some v0 else mapFind k rest

/-- Lower-case hexadecimal digit, as produced by `std::snprintf("\u%04x")`. -/
def hexDigit (n : Nat) : Char :=
  if n < 10 then Char.ofNat (48 + n) else Char.ofNat (97 + (n - 10))

/-- Serialization of one string byte inside `json::quote`. -/
def quoteChar (c : Char) : Str :=
  if c = chQuote then [chBackslash, chQuote]
  else if c = chBackslash then [chBackslash, chBackslash]
  else if c.toNat = 8 then [chBackslash, 'b']
  else if c.toNat = 12 then [chBackslash, 'f']
  else if c.toNat = 10 then [chBackslash, 'n']
  else if c.toNat = 13 then [chBackslash, 'r']
  else if c.toNat = 9 then [chBackslash, 't']
  else if c.toNat < 32 then
    [chBackslash, 'u', '0', '0', hexDigit (c.toNat / 16), hexDigit (c.toNat % 16)]
  else [c]

/-- `json::quote`: wrap in double quotes, escaping specials and control
bytes. -/
def jquote (s : Str) : Str := chQuote :: (s.flatMap quoteChar ++ [chQuote])

/-- Decimal digit character of `n % 10`. -/
def digitChar (n : Nat) : Char := Char.ofNat (48 + n % 10)

/-- Decimal digits of `n`, least significant first (`fuel`-driven so that the
definition is structural; `fuel > n` suffices). -/
def natToRevDigits : Nat → Nat → Str
  | 0, _ => []
  | fuel + 1, n => if n < 10 then [digitChar n] else digitChar n :: natToRevDigits fuel (n / 10)

/-- Decimal representation of a natural number (`std::to_string`). -/
def natDump (n : Nat) : Str := (natToRevDigits (n + 1) n).reverse

/-- Decimal representation of an `int64_t` (`std::to_string(ival_)`). -/
def intDump (i : Int) : Str :=
  if i < 0 then '-' :: natDump i.natAbs else natDump i.natAbs

/-- Line break plus indentation emitted by `dump_impl` in pretty mode (empty
in compact mode, i.e. when `indent < 0`). -/
def breakIndent (ind : Int) (depth : Nat) : Str :=
  if 0 ≤ ind then chNL :: List.replicate (depth * ind.toNat) ' ' else []

mutual

/-- `json::dump_impl`: serialize a value.  `isFin` models `std::isfinite`,
`fp` models the 17-significant-digit `ostringstream` printer for finite
doubles.  `ind < 0` is compact mode (the `dump()` default). -/
def dumpImpl (isFin : F → Bool) (fp : F → Str) (ind : Int) (depth : Nat) : Jval F → Str
  | .null => "null".data
  | .bool b => if b then "true".data else "false".data
  | .int i => intDump i
  | .float f => if isFin f then fp f else "null".data
  | .str s => jquote s
  | .arr [] => ['[', ']']
  | .arr (e :: es) =>
    '[' :: (breakIndent ind (depth + 1) ++ dumpImpl isFin fp ind (depth + 1) e
      ++ dumpElemsRest isFin fp ind depth es ++ breakIndent ind depth ++ [']'])
  | .obj [] => [chLBrace, chRBrace]
  | .obj (m :: ms) =>
    chLBrace :: (breakIndent ind (depth + 1) ++ dumpMember isFin fp ind depth m
      ++ dumpMembersRest isFin fp ind depth ms ++ breakIndent ind depth ++ [chRBrace])

/-- One `key: value` member of an object (`quote(k) ++ ":" ++ value`, with a
space after the colon in pretty mode). -/
def dumpMember (isFin : F → Bool) (fp : F → Str) (ind : Int) (depth : Nat)
    (m : Str × Jval F) : Str :=
  jquote m.1 ++ ':' :: ((if 0 ≤ ind then [' '] else [])
    ++ dumpImpl isFin fp ind (depth + 1) m.2)

/-- The tail of an array body: a comma before every element after the
first. -/
def dumpElemsRest (isFin : F → Bool) (fp : F → Str) (ind : Int) (depth : Nat) :
    List (Jval F) → Str
  | [] => []
  | e :: es =>
    ',' :: (breakIndent ind (depth + 1) ++ dumpImpl isFin fp ind (depth + 1) e
      ++ dumpElemsRest isFin fp ind depth es)

/-- The tail of an object body: a comma before every member after the
first. -/
def dumpMembersRest (isFin : F → Bool) (fp : F → Str) (ind : Int) (depth : Nat) :
    List (Str × Jval F) → Str
  | [] => []
  | m :: ms =>
    ',' :: (breakIndent ind (depth + 1) ++ dumpMember isFin fp ind depth m
      ++ dumpMembersRest isFin fp ind depth ms)

end

/-- `json::dump()` with the default argument: compact serialization
(`indent = -1`). -/
def dumpC (isFin : F → Bool) (fp : F → Str) (v : Jval F) : Str :=
  dumpImpl isFin fp (-1) 0 v

/-- One constructor per `throw` site reachable from `json::parse`.  The
`intOutOfRange` and `noDigits` constructors model the `std::out_of_range` /
`std::invalid_argument` exceptions of `std::stoll` (which are not
`json::exception`s); `floatReadFail` models a throwing `std::stod`;
`outOfFuel` is an artifact of the embedding (never hit with enough fuel). -/
inductive PErr where
  | unexpectedEnd
  | expected (want got : Char)
  | truncatedUnicodeEscape
  | badHexEscape
  | unterminatedString
  | badObjSep
  | badArrSep
  | badLiteral (w : Str)
  | unexpectedChar (c : Char)
  | trailing
  | intOutOfRange
  | noDigits
  | floatReadFail
  | outOfFuel
deriving DecidableEq, Repr

/-- Whitespace test of `Parser::skip_ws`. -/
def isWsChar (c : Char) : Bool :=
  c = ' ' || c.toNat = 9 || c.toNat = 13 || c.toNat = 10

/-- `Parser::skip_ws`: drop leading whitespace. -/
def skipWs : Str → Str
  | [] => []
  | c :: cs => if isWsChar c then skipWs cs else c :: cs

/-- `Parser::expect`: skip whitespace, consume one character, require it to be
`want`. -/
def expectChar (want : Char) (s : Str) : Except PErr Str :=
  match skipWs s with
  | [] => .error .unexpectedEnd
  | c :: cs => if c = want then .ok cs else .error (.expected want c)

/-- Value of a hexadecimal digit accepted by the `\u` escape decoder. -/
def hexVal (c : Char) : Option Nat :=
  if '0' ≤ c ∧ c ≤ '9' then some (c.toNat - 48)
  else if 'a' ≤ c ∧ c ≤ 'f' then some (c.toNat - 97 + 10)
  else if 'A' ≤ c ∧ c ≤ 'F' then some (c.toNat - 65 + 10)
  else none

/-- UTF-8 encoding of a code point below 0x10000, as emitted by the `\u`
escape decoder of `parse_string_val`. -/
def utf8Enc (cp : Nat) : Str :=
  if cp < 0x80 then [Char.ofNat cp]
  else if cp < 0x800 then
    [Char.ofNat (0xC0 ||| (cp >>> 6)), Char.ofNat (0x80 ||| (cp &&& 0x3F))]
  else
    [Char.ofNat (0xE0 ||| (cp >>> 12)), Char.ofNat (0x80 ||| ((cp >>> 6) &&& 0x3F)),
      Char.ofNat (0x80 ||| (cp &&& 0x3F))]

/-- The body loop of `Parser::parse_string_val`, entered after the opening
quote: returns the decoded bytes and the input after the closing quote. -/
def parseStringBody : Str → Except PErr (Str × Str)
  | [] => .error .unterminatedString
  | c :: cs =>
    if c = chQuote then .ok ([], cs)
    else if c ≠ chBackslash then do
      let (out, rest) ← parseStringBody cs
      .ok (c :: out, rest)
    else
      match cs with
      | [] => .error .unterminatedString
      | e :: cs2 =>
        if e = 'u' then
          match cs2 with
          | h1 :: h2 :: h3 :: h4 :: cs3 =>
            match hexVal h1, hexVal h2, hexVal h3, hexVal h4 with
            | some d1, some d2, some d3, some d4 => do
              let cp := ((d1 * 16 + d2) * 16 + d3) * 16 + d4
              let (out, rest) ← parseStringBody cs3
              .ok (utf8Enc cp ++ out, rest)
            | _, _, _, _ => .error .badHexEscape
          | _ => .error .truncatedUnicodeEscape
        else do
          let dec : Char :=
            if e = chQuote then chQuote
            else if e = chBackslash then chBackslash
            else if e = '/' then '/'
            else if e = 'b' then Char.ofNat 8
            else if e = 'f' then Char.ofNat 12
            else if e = 'n' then Char.ofNat 10
            else if e = 'r' then Char.ofNat 13
            else if e = 't' then Char.ofNat 9
            else e
          let (out, rest) ← parseStringBody cs2
          .ok (dec :: out, rest)

/-- `Parser::parse_string_val`: expect the opening quote, then decode the
body. -/
def parseStringVal (s : Str) : Except PErr (Str × Str) := do
  let s1 ← expectChar chQuote s
  parseStringBody s1

/-- Decimal digit test used by the number scanner. -/
def isDigitB (c : Char) : Bool := '0' ≤ c && c ≤ '9'

/-- Value of a non-empty digit string, most significant digit first. -/
def digitsVal (ds : Str) : Nat := ds.foldl (fun acc c => acc * 10 + (c.toNat - 48)) 0

/-- The optional leading minus sign of the number grammar. -/
def scanSign (s : Str) : Str × Str :=
  match s with
  | '-' :: t => (['-'], t)
  | _ => ([], s)

/-- The optional fraction part (`. digits*`) of the number grammar. -/
def scanFrac (s : Str) : Str × Bool × Str :=
  match s with
  | '.' :: t => ('.' :: t.takeWhile isDigitB, true, t.dropWhile isDigitB)
  | _ => ([], false, s)

/-- The optional sign of the exponent part. -/
def scanExpSign (s : Str) : Str × Str :=
  match s with
  | '+' :: u => (['+'], u)
  | '-' :: u => (['-'], u)
  | _ => ([], s)

/-- The optional exponent part (`[eE] [+-]? digits*`) of the number
grammar. -/
def scanExp (s : Str) : Str × Bool × Str :=
  match s with
  | c :: t =>
    if c = 'e' ∨ c = 'E' then
      ((c :: ((scanExpSign t).1 ++ (scanExpSign t).2.takeWhile isDigitB)), true,
        (scanExpSign t).2.dropWhile isDigitB)
    else ([], false, c :: t)
  | [] => ([], false, [])

/-- The number scanner of `Parser::parse_number`: longest prefix matching
`-? digits* (. digits*)? ([eE] [+-]? digits*)?`; returns the scanned token,
the `is_float` flag, and the rest of the input. -/
def scanNumber (s : Str) : Str × Bool × Str :=
  let sg := scanSign s
  let d1 := sg.2.takeWhile isDigitB
  let s2 := sg.2.dropWhile isDigitB
  let fr := scanFrac s2
  let ex := scanExp fr.2.2
  (sg.1 ++ d1 ++ fr.1 ++ ex.1, fr.2.1 || ex.2.1, ex.2.2)

/-- The sign handling of `std::stoll`. -/
def stollSign (tok : Str) : Int × Str :=
  match tok with
  | '-' :: u => (-1, u)
  | '+' :: u => (1, u)
  | _ => (1, tok)

/-- `std::stoll` on the scanned integer token: optional sign, at least one
digit, result must fit in `int64_t` (otherwise `std::out_of_range`). -/
def stollModel (tok : Str) : Except PErr Int :=
  let ds := (stollSign tok).2.takeWhile isDigitB
  if ds = [] then .error .noDigits
  else
    let v : Int := (stollSign tok).1 * (digitsVal ds : Int)
    if -(2 ^ 63) ≤ v ∧ v < 2 ^ 63 then .ok v else .error .intOutOfRange

/-- `Parser::parse_number`: scan the token, then convert with
`std::stoll` (integer) or `std::stod` (float, modelled by `rd`; `none` is a
throwing `stod`). -/
def parseNumber (rd : Str → Option F) (s : Str) : Except PErr (Jval F × Str) :=
  let (tok, isF, rest) := scanNumber s
  if isF then
    match rd tok with
    | some f => .ok (.float f, rest)
    | none => .error .floatReadFail
  else
    match stollModel tok with
    | .ok i => .ok (.int i, rest)
    | .error e => .error e

mutual

/-- `Parser::parse_value`.  `fuel` only bounds the recursion depth of the
embedding; every recursive call decrements it, and `parseFuel` below always
supplies enough. -/
def parseValue (rd : Str → Option F) : Nat → Str → Except PErr (Jval F × Str)
  | 0, _ => .error .outOfFuel
  | fuel + 1, s =>
    match skipWs s with
    | [] => .error (.unexpectedChar (Char.ofNat 0))
    | c :: cs =>
      if c = chQuote then do
        let (out, rest) ← parseStringBody cs
        .ok (.str out, rest)
      else if c = chLBrace then
        match skipWs cs with
        | chR :: rest =>
          if chR = chRBrace then .ok (.obj [], rest)
          else parseMembers rd fuel [] (chR :: rest)
        | [] => parseMembers rd fuel [] []
      else if c = '[' then
        match skipWs cs with
        | ']' :: rest => .ok (.arr [], rest)
        | rest0 => parseElems rd fuel [] rest0
      else if c = 't' then
        if (c :: cs).take 4 = "true".data then .ok (.bool true, (c :: cs).drop 4)
        else .error (.badLiteral "true".data)
      else if c = 'f' then
        if (c :: cs).take 5 = "false".data then .ok (.bool false, (c :: cs).drop 5)
        else .error (.badLiteral "false".data)
      else if c = 'n' then
        if (c :: cs).take 4 = "null".data then .ok (.null, (c :: cs).drop 4)
        else .error (.badLiteral "null".data)
      else if c = '-' ∨ isDigitB c then parseNumber rd (c :: cs)
      else .error (.unexpectedChar c)

/-- The member loop of the object branch of `parse_value`: key string, colon,
value, then comma (continue) or closing brace (stop). -/
def parseMembers (rd : Str → Option F) : Nat → List (Str × Jval F) → Str →
    Except PErr (Jval F × Str)
  | 0, _, _ => .error .outOfFuel
  | fuel + 1, acc, s => do
    let (key, s1) ← parseStringVal s
    let s2 ← expectChar ':' s1
    let (v, s3) ← parseValue rd fuel s2
    let acc2 := mapInsert key v acc
    match skipWs s3 with
    | c :: rest =>
      if c = chRBrace then .ok (.obj acc2, rest)
      else if c = ',' then parseMembers rd fuel acc2 rest
      else .error .badObjSep
    | [] => .error .badObjSep

/-- The element loop of the array branch of `parse_value`: value, then comma
(continue) or closing bracket (stop). -/
def parseElems (rd : Str → Option F) : Nat → List (Jval F) → Str →
    Except PErr (Jval F × Str)
  | 0, _, _ => .error .outOfFuel
  | fuel + 1, acc, s => do
    let (v, s1) ← parseValue rd fuel s
    let acc2 := acc ++ [v]
    match skipWs s1 with
    | c :: rest =>
      if c = ']' then .ok (.arr acc2, rest)
      else if c = ',' then parseElems rd fuel acc2 rest
      else .error .badArrSep
    | [] => .error .badArrSep

end

/-- Fuel budget that always suffices for `parseValue` (each nesting level of
the input consumes at least one input byte before recursing). -/
def parseFuel (s : Str) : Nat := 2 * s.length + 2

/-- `json::parse`: parse one value, then require only whitespace to remain
(`"Trailing content after JSON value"` otherwise). -/
def jparse (rd : Str → Option F) (s : Str) : Except PErr (Jval F) := do
  let (v, rest) ← parseValue rd (parseFuel s) s
  if skipWs rest = [] then .ok v else .error .trailing

/-- Range of `int64_t`: values representable by the `ival_` field. -/
def intFits (i : Int) : Prop := -(2 ^ 63) ≤ i ∧ i < 2 ^ 63

/-- All characters of the modelled byte string are bytes. -/
def strBytes (s : Str) : Prop := ∀ c ∈ s, c.toNat < 256

/-- A value constructible in the value engine: `int64_t` payloads in range,
strings made of bytes, object member lists sorted strictly by the map order
(the `std::map` representation invariant), and — where it matters — float
payloads for which `std::isfinite` holds are tracked by `WF` only through the
`isFin` flag. -/
inductive WF (isFin : F → Bool) : Jval F → Prop where
  | null : WF isFin .null
  | bool (b : Bool) : WF isFin (.bool b)
  | int (i : Int) (h : intFits i) : WF isFin (.int i)
  | float (f : F) (h : isFin f = true) : WF isFin (.float f)
  | str (s : Str) (h : strBytes s) : WF isFin (.str s)
  | arr (es : List (Jval F)) (h : ∀ e ∈ es, WF isFin e) : WF isFin (.arr es)
  | obj (ms : List (Str × Jval F))
      (hsort : ms.Pairwise (fun a b => strLt a.1 b.1 = true))
      (hkeys : ∀ m ∈ ms, strBytes m.1)
      (h : ∀ m ∈ ms, WF isFin m.2) : WF isFin (.obj ms)

/-- Contexts in which a serialized value can occur inside a compact dump: at
the very end of the document, or followed by a separator or closing
delimiter. -/
def RestOk (rest : Str) : Prop :=
  rest = [] ∨ ∃ c cs, rest = c :: cs ∧ (c = ',' ∨ c = chRBrace ∨ c = ']')

/-- The contract between the float printer of `dump_impl`
(`ostringstream << setprecision(17)`, modelled by `fp`) and the float reader
of `parse_number` (`std::stod`, modelled by `rd`), for finite doubles: the
printed token starts like a number and scans back to the same float.  The
source relies on exactly this (17 significant digits guarantee read-back). -/
structure FloatContract (isFin : F → Bool) (fp : F → Str) (rd : Str → Option F) : Prop where
  head : ∀ f, isFin f = true → ∃ c cs, fp f = c :: cs ∧ (c = '-' ∨ isDigitB c = true)
  num : ∀ f rest, isFin f = true → RestOk rest →
    parseNumber rd (fp f ++ rest) = .ok (Jval.float f, rest)

mutual

/-- Fuel sufficient for `parseValue` on the serialization of a value. -/
def parseNeed : Jval F → Nat
  | .arr [] => 1
  | .arr (e :: es) => 1 + parseNeedElems (e :: es)
  | .obj [] => 1
  | .obj (m :: ms) => 1 + parseNeedMembers (m :: ms)
  | _ => 1

/-- Fuel sufficient for `parseElems` on a serialized element list. -/
def parseNeedElems : List (Jval F) → Nat
  | [] => 1
  | e :: es => 1 + max (parseNeed e) (parseNeedElems es)

/-- Fuel sufficient for `parseMembers` on a serialized member list. -/
def parseNeedMembers : List (Str × Jval F) → Nat
  | [] => 1
  | m :: ms => 1 + max (parseNeed m.2) (parseNeedMembers ms)

end

/-- One constructor per `throw` site of the typed accessors of `json.hpp`
(`get<T>` and the mutable / index `operator[]`). -/
inductive TErr where
  | getBoolNonBool
  | getIntNonNumber
  | getFloatNonNumber
  | getStrNonString
  | getUnsupported
  | opIndexNonObject
  | opIndexNonArray
deriving DecidableEq, Repr

/-- The `what()` message of each accessor exception. -/
def terrMsg : TErr → Str
  | .getBoolNonBool => "get<bool> on non-bool".data
  | .getIntNonNumber => "get<integer> on non-number".data
  | .getFloatNonNumber => "get<float> on non-number".data
  | .getStrNonString => "get<string> on non-string".data
  | .getUnsupported => "get: unsupported type".data
  | .opIndexNonObject => "operator[string] on non-object".data
  | .opIndexNonArray => "operator[size_t] on non-array".data

/-- `get<bool>`: requires the Bool kind. -/
def getB : Jval F → Except TErr Bool
  | .bool b => .ok b
  | _ => .error .getBoolNonBool

/-- `get<T>` for a non-bool integral `T` (used at `int64_t`): Int returns the
payload, Float converts with `static_cast` (modelled by `f2i`), anything else
throws. -/
def getI (f2i : F → Int) : Jval F → Except TErr Int
  | .int i => .ok i
  | .float f => .ok (f2i f)
  | _ => .error .getIntNonNumber

/-- `get<T>` for a floating-point `T`: Float returns the payload, Int
converts (modelled by `i2f`), anything else throws. -/
def getFl (i2f : Int → F) : Jval F → Except TErr F
  | .float f => .ok f
  | .int i => .ok (i2f i)
  | _ => .error .getFloatNonNumber

/-- `get<std::string>`: requires the String kind. -/
def getS : Jval F → Except TErr Str
  | .str s => .ok s
  | _ => .error .getStrNonString

/-- `json::contains`. -/
def containsJ (j : Jval F) (key : Str) : Bool :=
  match j with
  | .obj ms => (mapFind key ms).isSome
  | _ => false

/-- Kind queries (`is_object` / `is_array` / `is_number` / `is_string` /
`is_null`). -/
def isObjB : Jval F → Bool
  | .obj _ => true
  | _ => false

/-- `is_array`. -/
def isArrB : Jval F → Bool
  | .arr _ => true
  | _ => false

/-- `is_number` (Int or Float kind). -/
def isNumB : Jval F → Bool
  | .int _ => true
  | .float _ => true
  | _ => false

/-- `is_string`. -/
def isStrB : Jval F → Bool
  | .str _ => true
  | _ => false

/-- `is_null`. -/
def isNullB : Jval F → Bool
  | .null => true
  | _ => false

/-- `json::size`: container length, 0 for scalars. -/
def sizeJ : Jval F → Nat
  | .arr es => es.length
  | .obj ms => ms.length
  | _ => 0

/-- Iteration of a `json` with range-`for` (`begin`/`end` expose the array
storage, which is empty for every non-array value). -/
def arrElems : Jval F → List (Jval F)
  | .arr es => es
  | _ => []

/-- The net effect of `j[key] = v` through the mutable string
`operator[]`: a Null receiver is first turned into an empty object, a
non-object receiver throws `TypeError`, and the slot is inserted or
overwritten. -/
def setKeyM (j : Jval F) (key : Str) (v : Jval F) : Except TErr (Jval F) :=
  match j with
  | .null => .ok (.obj (mapInsert key v []))
  | .obj ms => .ok (.obj (mapInsert key v ms))
  | _ => .error .opIndexNonObject

/-- The mutable index `operator[](size_t)` on the receiver position: throws
unless the receiver is an array (in particular it throws on Null). -/
def setIdxGate (j : Jval F) : Except TErr Unit :=
  match j with
  | .arr _ => .ok ()
  | _ => .error .opIndexNonArray

/-- The const string `operator[]`: a non-object receiver or a missing key
yields the shared Null singleton; never throws. -/
def getKeyC (j : Jval F) (key : Str) : Jval F :=
  match j with
  | .obj ms => (mapFind key ms).getD .null
  | _ => .null

/-- The mutable string `operator[]` used for reading (as in
`call(...)["result"]`): Null auto-vivifies to an object (yielding Null for
the fresh slot), a non-object receiver throws. -/
def indexMut (j : Jval F) (key : Str) : Except TErr (Jval F) :=
  match j with
  | .null => .ok .null
  | .obj ms => .ok ((mapFind key ms).getD .null)
  | _ => .error .opIndexNonObject

/-- `aval_[0]` on a (guarded non-empty) array. -/
def jIdx0 : Jval F → Jval F
  | .arr (e :: _) => e
  | _ => .null

/-- `json::value<T>` at `T = bool`: default on non-object receiver, missing
key, stored null, or a failing `get<bool>`. -/
def valueB (j : Jval F) (key : Str) (dflt : Bool) : Bool :=
  match j with
  | .obj ms =>
    match mapFind key ms with
    | none => dflt
    | some v =>
      match v with
      | .null => dflt
      | v2 =>
        match getB v2 with
        | .ok b => b
        | .error _ => dflt
  | _ => dflt

/-- `json::value<T>` at integral `T`. -/
def valueI (f2i : F → Int) (j : Jval F) (key : Str) (dflt : Int) : Int :=
  match j with
  | .obj ms =>
    match mapFind key ms with
    | none => dflt
    | some v =>
      match v with
      | .null => dflt
      | v2 =>
        match getI f2i v2 with
        | .ok i => i
        | .error _ => dflt
  | _ => dflt

/-- `json::value<T>` at floating-point `T`. -/
def valueF (i2f : Int → F) (j : Jval F) (key : Str) (dflt : F) : F :=
  match j with
  | .obj ms =>
    match mapFind key ms with
    | none => dflt
    | some v =>
      match v with
      | .null => dflt
      | v2 =>
        match getFl i2f v2 with
        | .ok f => f
        | .error _ => dflt
  | _ => dflt

/-- The `const char*` overload of `json::value`: default on non-object
receiver, missing key, stored null, or a non-String stored kind. -/
def valueS (j : Jval F) (key : Str) (dflt : Str) : Str :=
  match j with
  | .obj ms =>
    match mapFind key ms with
    | none => dflt
    | some v =>
      match v with
      | .str s => s
      | _ => dflt
  | _ => dflt

/-- One constructor per failure site of `RpcClient::http_post` after the
response bytes have been received (all are thrown as `RpcError`; the message
distinguishes them). -/
inductive HttpFailure where
  | emptyResponse
  | invalidHttpResponse
  | invalidStatusLine
  | noHeaderSeparator
  | authenticationError
  | httpError (code : Int)
deriving DecidableEq, Repr

/-- Whitespace test of `std::isspace` in the default locale. -/
def isSpaceB (c : Char) : Bool :=
  c = ' ' || (9 ≤ c.toNat && c.toNat ≤ 13)

/-- `std::stoi`: skip whitespace, optional sign, at least one digit
(`std::invalid_argument` otherwise).  The transport applies it to at most
three characters, so no overflow check is needed. -/
def stoiModel (s : Str) : Except Unit Int :=
  let s1 := s.dropWhile isSpaceB
  let (sgn, s2) : Int × Str :=
    match s1 with
    | '-' :: u => (-1, u)
    | '+' :: u => (1, u)
    | _ => (1, s1)
  let ds := s2.takeWhile isDigitB
  if ds = [] then .error () else .ok (sgn * (digitsVal ds : Int))

/-- Does the input start with the four bytes CR LF CR LF? -/
def startsCRLF2 : Str → Bool
  | c1 :: c2 :: c3 :: c4 :: _ =>
    c1.toNat = 13 && c2.toNat = 10 && c3.toNat = 13 && c4.toNat = 10
  | _ => false

/-- Index of the first occurrence of CR LF CR LF
(`response.find("\r\n\r\n")`). -/
def findHeaderEnd : Str → Option Nat
  | [] => none
  | c :: rest =>
    if startsCRLF2 (c :: rest) then some 0
    else (findHeaderEnd rest).map (· + 1)

/-- The response-interpretation tail of `RpcClient::http_post`: extract the
status code from the status line, locate the blank line, and map the status:
401 is an authentication failure, 200 and 500 hand the body to envelope
parsing, anything else is an HTTP error carrying the code. -/
def httpPostStatus (response : Str) : Except HttpFailure (Int × Str) :=
  if response = [] then .error .emptyResponse
  else
    match response.findIdx? (· = ' ') with
    | none => .error .invalidHttpResponse
    | some sp =>
      match stoiModel ((response.drop (sp + 1)).take 3) with
      | .error _ => .error .invalidStatusLine
      | .ok status =>
        match findHeaderEnd response with
        | none => .error .noHeaderSeparator
        | some he =>
          let body := response.drop (he + 4)
          if status = 401 then .error .authenticationError
          else if status ≠ 200 ∧ status ≠ 500 then .error (.httpError status)
          else .ok (status, body)

/-- The operations the polled code performs on C++ `double`s, abstracted over
the float model `F`. -/
structure FOps (F : Type) where
  f2i : F → Int
  i2f : Int → F
  zero : F
  negOne : F
  hashps : F → F
  mul1000 : F → F
  fadd : F → F → F
  feeRate : F → Int → F

/-- `BlockStat` of `main.cpp`. -/
structure BlockStat where
  height : Int := 0
  txs : Int := 0
  total_size : Int := 0
  total_weight : Int := 0
  time : Int := 0
deriving DecidableEq, Repr

/-- `PeerInfo` of `main.cpp`. -/
structure PeerInfo (F : Type) where
  id : Int
  addr : Str
  network : Str
  subver : Str
  inbound : Bool
  bytes_sent : Int
  bytes_recv : Int
  ping_ms : F
  version : Int
  synced_blocks : Int

/-- `AppState` of `main.cpp`: the shared snapshot. -/
structure AppState (F : Type) where
  chain : Str
  blocks : Int
  headers : Int
  difficulty : F
  progress : F
  pruned : Bool
  ibd : Bool
  bestblockhash : Str
  connections : Int
  connections_in : Int
  connections_out : Int
  subversion : Str
  protocol_version : Int
  network_active : Bool
  relay_fee : F
  mempool_tx : Int
  mempool_bytes : Int
  mempool_usage : Int
  mempool_max : Int
  mempool_min_fee : F
  total_fee : F
  network_hashps : F
  peers : List (PeerInfo F)
  recent_blocks : List BlockStat
  blocks_fetched_at : Int
  block_anim_active : Bool
  block_anim_frame : Int
  block_anim_old : List BlockStat
  last_update : Str
  error_message : Str
  connected : Bool
  refreshing : Bool

/-- The peer record built by the Phase-1 peer loop of `poll_rpc`. -/
def mkPeer (ops : FOps F) (p : Jval F) : PeerInfo F :=
  { id := valueI ops.f2i p "id".data 0,
    addr := valueS p "addr".data [],
    network := valueS p "network".data [],
    subver := valueS p "subver".data [],
    inbound := valueB p "inbound".data false,
    bytes_sent := valueI ops.f2i p "bytessent".data 0,
    bytes_recv := valueI ops.f2i p "bytesrecv".data 0,
    version := valueI ops.f2i p "version".data 0,
    synced_blocks := valueI ops.f2i p "synced_blocks".data 0,
    ping_ms :=
      if containsJ p "pingtime".data && isNumB (getKeyC p "pingtime".data) then
        match getFl ops.i2f (getKeyC p "pingtime".data) with
        | .ok f => ops.mul1000 f
        | .error _ => ops.negOne
      else ops.negOne }

/-- The Phase-1 commit of `poll_rpc` (the block under the first
`lock_guard`): overwrite the chain / network / mempool / peer / hash-rate /
status fields from the four fetched results.  `now` models `now_string()`. -/
def phase1Commit (ops : FOps F) (st : AppState F) (bc net mp pi : Jval F)
    (now : Str) : AppState F :=
  { st with
    chain := valueS bc "chain".data emDash,
    blocks := valueI ops.f2i bc "blocks".data 0,
    headers := valueI ops.f2i bc "headers".data 0,
    difficulty := valueF ops.i2f bc "difficulty".data ops.zero,
    progress := valueF ops.i2f bc "verificationprogress".data ops.zero,
    pruned := valueB bc "pruned".data false,
    ibd := valueB bc "initialblockdownload".data false,
    bestblockhash := valueS bc "bestblockhash".data [],
    connections := valueI ops.f2i net "connections".data 0,
    connections_in := valueI ops.f2i net "connections_in".data 0,
    connections_out := valueI ops.f2i net "connections_out".data 0,
    subversion := valueS net "subversion".data [],
    protocol_version := valueI ops.f2i net "protocolversion".data 0,
    network_active := valueB net "networkactive".data true,
    relay_fee := valueF ops.i2f net "relayfee".data ops.zero,
    mempool_tx := valueI ops.f2i mp "size".data 0,
    mempool_bytes := valueI ops.f2i mp "bytes".data 0,
    mempool_usage := valueI ops.f2i mp "usage".data 0,
    mempool_max := valueI ops.f2i mp "maxmempool".data 300000000,
    mempool_min_fee := valueF ops.i2f mp "mempoolminfee".data ops.zero,
    total_fee := valueF ops.i2f mp "total_fee".data ops.zero,
    network_hashps := ops.hashps (valueF ops.i2f bc "difficulty".data ops.zero),
    peers := (arrElems pi).map (mkPeer ops),
    connected := true,
    error_message := [],
    last_update := now }

/-- The `catch` branch of `poll_rpc`: a Phase-1 failure only records the
connectivity status. -/
def phase1Fail (st : AppState F) (msg now : Str) : AppState F :=
  { st with connected := false, error_message := msg, last_update := now }

/-- The Phase-2 fetch loop: up to 20 `getblockstats` calls for heights
`tip, tip - 1, …`, stopping at height 0, at the 20th block, or at the first
failing call (keeping what was fetched so far).  `fetch` models one
`getblockstats` call (already projected to the five requested fields);
`none` is a failing call. -/
def freshGo (fetch : Int → Option BlockStat) (tip : Int) : Nat → Nat → List BlockStat
  | 0, _ => []
  | fuel + 1, i =>
    if i < 20 ∧ 0 ≤ tip - (i : Int) then
      match fetch (tip - (i : Int)) with
      | some b => b :: freshGo fetch tip fuel (i + 1)
      | none => []
    else []

/-- The fresh block list fetched by Phase 2. -/
def freshBlocks (fetch : Int → Option BlockStat) (tip : Int) : List BlockStat :=
  freshGo fetch tip 20 0

/-- Phase 2 of `poll_rpc`: runs only when the fresh tip differs from the tip
cached at the last successful block-list fetch *and* is positive; snapshots
the previous list into the animation buffer exactly when both the previous
and the fresh list are non-empty; then replaces the list and the fetched-at
height. -/
def phase2Run (fetch : Int → Option BlockStat) (cached new_tip : Int)
    (st : AppState F) : AppState F :=
  if new_tip ≠ cached ∧ 0 < new_tip then
    if st.recent_blocks ≠ [] ∧ freshBlocks fetch new_tip ≠ [] then
      { st with
        block_anim_old := st.recent_blocks,
        block_anim_frame := 0,
        block_anim_active := true,
        recent_blocks := freshBlocks fetch new_tip,
        blocks_fetched_at := new_tip }
    else
      { st with
        recent_blocks := freshBlocks fetch new_tip,
        blocks_fetched_at := new_tip }
  else st

/-- One successful poll cycle of `poll_rpc` (both phases; Phase 1 succeeded):
read the cached tip, commit Phase 1, then run the conditional Phase 2. -/
def pollSuccess (ops : FOps F) (st0 : AppState F) (bc net mp pi : Jval F)
    (now : Str) (fetch : Int → Option BlockStat) : AppState F :=
  let cached := st0.blocks_fetched_at
  let new_tip := valueI ops.f2i bc "blocks".data 0
  phase2Run fetch cached new_tip (phase1Commit ops st0 bc net mp pi now)

/-- `TxVin` of `main.cpp`. -/
structure TxVin where
  txid : Str := []
  vout : Int := 0
  is_coinbase : Bool := false
deriving DecidableEq, Repr

/-- `TxVout` of `main.cpp`. -/
structure TxVout (F : Type) where
  value : F
  address : Str
  type : Str

/-- `TxSearchState` of `main.cpp`. -/
structure TxS (F : Type) where
  txid : Str
  searching : Bool
  found : Bool
  is_block : Bool
  confirmed : Bool
  error : Str
  vsize : Int
  weight : Int
  fee : F
  fee_rate : F
  ancestors : Int
  descendants : Int
  entry_time : Int
  blockhash : Str
  block_height : Int
  confirmations : Int
  blocktime : Int
  vin_count : Int
  vout_count : Int
  total_output : F
  blk_hash : Str
  blk_height : Int
  blk_time : Int
  blk_ntx : Int
  blk_size : Int
  blk_weight : Int
  blk_difficulty : F
  blk_miner : Str
  blk_confirmations : Int
  vin_list : List TxVin
  vout_list : List (TxVout F)
  io_selected : Int
  inputs_overlay_open : Bool
  input_overlay_sel : Int
  outputs_overlay_open : Bool
  output_overlay_sel : Int

/-- The default-initialized `TxSearchState` (`TxSearchState result;` in
`perform_tx_search`). -/
def mkTxS0 (ops : FOps F) : TxS F :=
  { txid := [], searching := false, found := false, is_block := false,
    confirmed := false, error := [], vsize := 0, weight := 0,
    fee := ops.zero, fee_rate := ops.zero, ancestors := 0, descendants := 0,
    entry_time := 0, blockhash := [], block_height := -1, confirmations := 0,
    blocktime := 0, vin_count := 0, vout_count := 0, total_output := ops.zero,
    blk_hash := [], blk_height := 0, blk_time := 0, blk_ntx := 0,
    blk_size := 0, blk_weight := 0, blk_difficulty := ops.zero,
    blk_miner := [], blk_confirmations := 0, vin_list := [], vout_list := [],
    io_selected := -1, inputs_overlay_open := false, input_overlay_sel := -1,
    outputs_overlay_open := false, output_overlay_sel := -1 }

/-- `TxResultKind` of `main.cpp`. -/
inductive TxResultKind where
  | searching | block | mempool | confirmed | error
deriving DecidableEq, Repr

/-- `classify_result` of `main.cpp`. -/
def classifyResult (ss : TxS F) : TxResultKind :=
  if ss.searching then .searching
  else if !ss.found then .error
  else if ss.is_block then .block
  else if ss.confirmed then .confirmed
  else .mempool

/-- The RPC endpoint as seen by `perform_tx_search`: one envelope (or one
transport/RPC exception message) per `(method, params)` call. -/
def Oracle (F : Type) : Type := Str → List (Jval F) → Except Str (Jval F)

/-- `rpc.call(method, params)["result"]`: a call failure or a throwing
mutable `["result"]` access both surface as an exception message. -/
def callResult (oracle : Oracle F) (method : Str) (params : List (Jval F)) :
    Except Str (Jval F) :=
  match oracle method params with
  | .error e => .error e
  | .ok env =>
    match indexMut env "result".data with
    | .ok r => .ok r
    | .error te => .error (terrMsg te)

/-- Test of the hexadecimal digits accepted by `std::stoi(·, nullptr, 16)`. -/
def stoiHexPair (c1 c2 : Char) : Except Unit Nat :=
  match hexVal c1 with
  | none => .error ()
  | some h1 =>
    match hexVal c2 with
    | some h2 => .ok (16 * h1 + h2)
    | none => .ok h1

/-- Printable-ASCII-except-slash test of the `extract_miner` loop
(`0x20 <= b < 0x7f && b != '/'`). -/
def printableB (b : Nat) : Bool := 32 ≤ b && b < 127 && b ≠ 47

/-- The run flush of `extract_miner`: keep the current run when it has at
least 4 bytes and is strictly longer than the best so far. -/
def flushN (run best : List Nat) : List Nat :=
  if 4 ≤ run.length ∧ best.length < run.length then run else best

/-- The byte loop of `extract_miner` over the hex input (two characters per
byte, a trailing odd character is ignored; `std::stoi` throwing on a
non-hex leading character propagates). -/
def minerGo : Str → List Nat → List Nat → Except Unit (List Nat)
  | c1 :: c2 :: rest, run, best =>
    (match stoiHexPair c1 c2 with
     | .error e => .error e
     | .ok b =>
       if printableB b then minerGo rest (run ++ [b]) best
       else minerGo rest [] (flushN run best))
  | _, run, best => .ok (flushN run best)

/-- `extract_miner` of `main.cpp`. -/
def extractMiner (hex : Str) : Except Unit Str :=
  match minerGo hex [] [] with
  | .error e => .error e
  | .ok best0 =>
    let best1 := if 24 < best0.length then best0.take 24 else best0
    .ok (if best1 = [] then emDash else best1.map Char.ofNat)

/-- Hex decoding of the coinbase input, two characters per byte (the byte
sequence consumed by the `extract_miner` loop). -/
def decodePairs : Str → Except Unit (List Nat)
  | c1 :: c2 :: rest =>
    (match stoiHexPair c1 c2 with
     | .error e => .error e
     | .ok b =>
       match decodePairs rest with
       | .error e => .error e
       | .ok bs => .ok (b :: bs))
  | _ => .ok []

/-- Maximal runs of printable bytes of the decoded input, in order
(`run` accumulates the current run in reverse). -/
def runsOfAux : List Nat → List Nat → List (List Nat)
  | [], run => if run = [] then [] else [run.reverse]
  | b :: bs, run =>
    if printableB b then runsOfAux bs (b :: run)
    else if run = [] then runsOfAux bs [] else run.reverse :: runsOfAux bs []

/-- The maximal printable runs of a byte sequence. -/
def printableRuns (bs : List Nat) : List (List Nat) := runsOfAux bs []

/-- The miner tag as the claim words it, over the decoded bytes: the longest
printable run (the first one among equals), counted only when at least
4 bytes long, truncated to 24 characters, an em-dash placeholder when no run
qualifies. -/
def minerTagSpec (bs : List Nat) : Str :=
  let best := (printableRuns bs).foldl (fun b r => flushN r b) []
  let best1 := best.take 24
  if best1 = [] then emDash else best1.map Char.ofNat

/-- Bridge between the interleaved hex loop of `extract_miner` and the
decoded byte sequence: the same state machine, run on bytes. -/
def minerFoldPure : List Nat → List Nat → List Nat → List Nat
  | [], run, best => flushN run best
  | b :: bs, run, best =>
    if printableB b then minerFoldPure bs (run ++ [b]) best
    else minerFoldPure bs [] (flushN run best)

/-- The `fetch_block` helper of `perform_tx_search`: `getblock` (verbosity 1)
plus the coinbase-based miner tag.  Returns the updated result, the methods
called, and a pending exception message if one escapes. -/
def fetchBlockM (ops : FOps F) (oracle : Oracle F) (hash : Str) (r : TxS F) :
    TxS F × List Str × Option Str :=
  match callResult oracle "getblock".data [.str hash, .int 1] with
  | .error e => (r, ["getblock".data], some e)
  | .ok blk =>
    let r1 := { r with
      blk_hash := valueS blk "hash".data hash,
      blk_height := valueI ops.f2i blk "height".data 0,
      blk_time := valueI ops.f2i blk "time".data 0,
      blk_ntx := valueI ops.f2i blk "nTx".data 0,
      blk_size := valueI ops.f2i blk "size".data 0,
      blk_weight := valueI ops.f2i blk "weight".data 0,
      blk_difficulty := valueF ops.i2f blk "difficulty".data ops.zero,
      blk_confirmations := valueI ops.f2i blk "confirmations".data 0 }
    if containsJ blk "tx".data && isArrB (getKeyC blk "tx".data) &&
        !(sizeJ (getKeyC blk "tx".data) = 0) then
      match getS (jIdx0 (getKeyC blk "tx".data)) with
      | .error te => (r1, ["getblock".data], some (terrMsg te))
      | .ok cbtxid =>
        match callResult oracle "getrawtransaction".data [.str cbtxid, .bool true] with
        | .error _ =>
          ({ r1 with blk_miner := emDash, is_block := true, found := true },
            ["getblock".data, "getrawtransaction".data], none)
        | .ok cbtx =>
          let r2 :=
            if containsJ cbtx "vin".data && isArrB (getKeyC cbtx "vin".data) &&
                !(sizeJ (getKeyC cbtx "vin".data) = 0) then
              let cbhex := valueS (jIdx0 (getKeyC cbtx "vin".data)) "coinbase".data []
              match extractMiner cbhex with
              | .ok tag => { r1 with blk_miner := tag }
              | .error _ => { r1 with blk_miner := emDash }
            else r1
          ({ r2 with is_block := true, found := true },
            ["getblock".data, "getrawtransaction".data], none)
    else ({ r1 with is_block := true, found := true }, ["getblock".data], none)

/-- The input list built by the confirmed-transaction branch. -/
def vinOf (ops : FOps F) (tx : Jval F) : List TxVin :=
  if containsJ tx "vin".data && isArrB (getKeyC tx "vin".data) then
    (arrElems (getKeyC tx "vin".data)).map (fun inp =>
      if containsJ inp "coinbase".data then
        { txid := [], vout := 0, is_coinbase := true }
      else
        { txid := valueS inp "txid".data [],
          vout := valueI ops.f2i inp "vout".data 0, is_coinbase := false })
  else []

/-- The output list built by the confirmed-transaction branch. -/
def voutOf (ops : FOps F) (tx : Jval F) : List (TxVout F) :=
  if containsJ tx "vout".data && isArrB (getKeyC tx "vout".data) then
    (arrElems (getKeyC tx "vout".data)).map (fun out =>
      let v0 := valueF ops.i2f out "value".data ops.zero
      if containsJ out "scriptPubKey".data then
        let spk := getKeyC out "scriptPubKey".data
        { value := v0,
          type := valueS spk "type".data [],
          address :=
            if containsJ spk "address".data then valueS spk "address".data []
            else [] }
      else { value := v0, address := [], type := [] })
  else []

/-- `perform_tx_search` of `main.cpp`, with the RPC endpoint abstracted as an
oracle.  Returns the result and the ordered list of RPC methods invoked. -/
def performTxSearch (ops : FOps F) (oracle : Oracle F) (query : Str)
    (is_height : Bool) (tip : Int) : TxS F × List Str :=
  let r0 := { mkTxS0 ops with txid := query }
  let step : TxS F × List Str × Option Str :=
    if is_height then
      match stollModel query with
      | .error _ => (r0, [], some "stoll".data)
      | .ok h =>
        match callResult oracle "getblockhash".data [.int h] with
        | .error e => (r0, ["getblockhash".data], some e)
        | .ok hashr =>
          match getS hashr with
          | .error te => (r0, ["getblockhash".data], some (terrMsg te))
          | .ok hash =>
            let (r1, c1, t1) := fetchBlockM ops oracle hash r0
            (r1, "getblockhash".data :: c1, t1)
    else
      match callResult oracle "getmempoolentry".data [.str query] with
      | .ok entry =>
        let fee :=
          if containsJ entry "fees".data && isObjB (getKeyC entry "fees".data) then
            valueF ops.i2f (getKeyC entry "fees".data) "base".data ops.zero
          else valueF ops.i2f entry "fee".data ops.zero
        let vsz := valueI ops.f2i entry "vsize".data 0
        let r1 := { r0 with
          fee := fee,
          vsize := vsz,
          weight := valueI ops.f2i entry "weight".data 0,
          ancestors := valueI ops.f2i entry "ancestorcount".data 0,
          descendants := valueI ops.f2i entry "descendantcount".data 0,
          entry_time := valueI ops.f2i entry "time".data 0,
          fee_rate := if 0 < vsz then ops.feeRate fee vsz else r0.fee_rate,
          confirmed := false,
          found := true }
        (r1, ["getmempoolentry".data], none)
      | .error _ =>
        match callResult oracle "getrawtransaction".data [.str query, .bool true] with
        | .ok tx =>
          let confs := valueI ops.f2i tx "confirmations".data 0
          let vins := vinOf ops tx
          let vouts := voutOf ops tx
          let r1 := { r0 with
            vsize := valueI ops.f2i tx "vsize".data 0,
            weight := valueI ops.f2i tx "weight".data 0,
            blockhash := valueS tx "blockhash".data [],
            confirmations := confs,
            blocktime := valueI ops.f2i tx "blocktime".data 0,
            block_height :=
              if 0 < tip ∧ 0 < confs then tip - confs + 1 else r0.block_height,
            vin_list := vins,
            vin_count := vins.length,
            vout_list := vouts,
            vout_count := vouts.length,
            total_output := vouts.foldl (fun acc o => ops.fadd acc o.value) ops.zero,
            confirmed := true,
            found := true }
          (r1, ["getmempoolentry".data, "getrawtransaction".data], none)
        | .error _ =>
          let (r1, c1, t1) := fetchBlockM ops oracle query r0
          (r1, "getmempoolentry".data :: "getrawtransaction".data :: c1, t1)
  match step with
  | (r, calls, some msg) => ({ r with error := msg }, calls)
  | (r, calls, none) => (r, calls)

/-- `isxdigit` in the C locale. -/
def isXdigitB (c : Char) : Bool :=
  isDigitB c || ('a' ≤ c && c ≤ 'f') || ('A' ≤ c && c ≤ 'F')

/-- `is_txid` of `main.cpp`: exactly 64 hexadecimal characters. -/
def isTxidQ (s : Str) : Bool := s.length = 64 && s.all isXdigitB

/-- `is_height` of `main.cpp`: non-empty, at most 8 decimal digits. -/
def isHeightQ (s : Str) : Bool :=
  !s.isEmpty && decide (s.length ≤ 8) && s.all isDigitB

/-- Space-or-tab test of `trimmed`. -/
def isBlankB (c : Char) : Bool := c = ' ' || c.toNat = 9

/-- `trimmed` of `main.cpp`: strip leading and trailing spaces and tabs. -/
def trimmedQ (s : Str) : Str :=
  ((s.dropWhile isBlankB).reverse.dropWhile isBlankB).reverse

/-- Outcome of the `Event::Return` branch of the global-search event handler:
the box state afterwards, the (untouched) search state, and the query handed
to `trigger_tx_search`, if any. -/
structure SearchBoxOut (F : Type) where
  active : Bool
  buf : Str
  search_state : TxS F
  submitted : Option Str

/-- The `Event::Return` branch of the event handler while the global search
box is active: trim the buffer, close the box, clear the buffer, and start a
lookup only for a valid txid or height query. -/
def onSearchReturn (ss : TxS F) (buf : Str) : SearchBoxOut F :=
  let q := trimmedQ buf
  { active := false,
    buf := [],
    search_state := ss,
    submitted := if isTxidQ q || isHeightQ q then some q else none }

/-- A trivial instantiation of the float model, used to evaluate the
embedding at concrete inputs. -/
def opsU : FOps Unit :=
  { f2i := fun _ => 0, i2f := fun _ => (), zero := (), negOne := (),
    hashps := fun _ => (), mul1000 := fun _ => (), fadd := fun _ _ => (),
    feeRate := fun _ _ => () }

/-- A float reader that never succeeds, for parsing documents without float
literals at concrete inputs. -/
def rdU : Str → Option Unit := fun _ => none

/-- The `AppState` a freshly started TUI holds (the member initializers of
the C++ struct), at the trivial float model. -/
def stInit : AppState Unit :=
  { chain := emDash, blocks := 0, headers := 0, difficulty := (),
    progress := (), pruned := false, ibd := false, bestblockhash := [],
    connections := 0, connections_in := 0, connections_out := 0,
    subversion := [], protocol_version := 0, network_active := true,
    relay_fee := (), mempool_tx := 0, mempool_bytes := 0, mempool_usage := 0,
    mempool_max := 300000000, mempool_min_fee := (), total_fee := (),
    network_hashps := (), peers := [], recent_blocks := [],
    blocks_fetched_at := -1, block_anim_active := false,
    block_anim_frame := 0, block_anim_old := [], last_update := [],
    error_message := [], connected := false, refreshing := false }

/-- A `getblockstats` endpoint that succeeds at every height. -/
def wFetch : Int → Option BlockStat := fun h => some { height := h }

/-- A `getblockchaininfo` result carrying only the tip height. -/
def wBcTip (n : Int) : Jval Unit := Jval.obj [("blocks".data, Jval.int n)]

/-- An endpoint for which the mempool lookup throws and the confirmed-
transaction lookup returns three confirmations. -/
def wOracleC3 : Oracle Unit := fun m _ =>
  if m = "getmempoolentry".data then .error "not in mempool".data
  else if m = "getrawtransaction".data then
    .ok (Jval.obj [("result".data,
      Jval.obj [("confirmations".data, Jval.int 3), ("vsize".data, Jval.int 150)])])
  else .error "unused".data

/-- Coinbase scriptSig hex for the bytes
`01 02 "abc" 00 "MinerPool9" 2f "xy"`: a 10-character printable run
surrounded by shorter noise runs. -/
def wMinerHex : Str := "0102616263004d696e6572506f6f6c392f7879".data

/-- The bytes `wMinerHex` decodes to. -/
def wMinerBytes : List Nat :=
  [1, 2, 97, 98, 99, 0, 77, 105, 110, 101, 114, 80, 111, 111, 108, 57, 47, 120, 121]

/-- A trivially finite float universe for the round-trip witness. -/
def isFinW : Unit → Bool := fun _ => true

/-- A printer for the round-trip witness: every float prints as `0.5`. -/
def fpW : Unit → Str := fun _ => "0.5".data

/-- A reader for the round-trip witness: every token reads back. -/
def rdW : Str → Option Unit := fun _ => some ()

/-- A nested concrete value exercising every constructor for the round-trip
witness. -/
def vW : Jval Unit :=
  .obj [("a".data, .arr [.int 5, .float (), .str "hi".data, .bool true, .null]),
        ("b".data, .int (-3))]

/-- C4: for every received HTTP response whose status line carries a status
code and whose headers terminate with a blank line, a 401 status fails the
call with the authentication error (a distinct failure), a 200 or 500 status
hands the body to envelope parsing, and any other status fails the call with
an HTTP error carrying the status code. -/
theorem http_status_mapping (resp : Str) (sp : Nat) (st : Int) (he : Nat)
    (hsp : resp.findIdx? (· = ' ') = some sp)
    (hst : stoiModel ((resp.drop (sp + 1)).take 3) = .ok st)
    (hhe : findHeaderEnd resp = some he) :
    (st = 401 → httpPostStatus resp = .error .authenticationError) ∧
    (st = 200 ∨ st = 500 → httpPostStatus resp = .ok (st, resp.drop (he + 4))) ∧
    (st ≠ 401 → st ≠ 200 → st ≠ 500 →
      httpPostStatus resp = .error (.httpError st)) := by
  have hne : ¬(resp = []) := by
    rintro rfl
    simp [List.findIdx?] at hsp
  unfold httpPostStatus
  simp only [if_neg hne, hsp, hst, hhe]
  refine ⟨?_, ?_, ?_⟩
  · rintro rfl
    simp
  · rintro (rfl | rfl) <;> norm_num
  · intro h1 h2 h3
    rw [if_neg h1, if_pos ⟨h2, h3⟩]

/-- C4 witness: a concrete 401 response is rejected with the authentication
error. -/
theorem http_status_mapping_witness :
    stoiModel ((("HTTP/1.0 401 Unauthorized\r\nA: b\r\n\r\nbody".data).drop 9).take 3)
      = .ok 401 ∧
    httpPostStatus "HTTP/1.0 401 Unauthorized\r\nA: b\r\n\r\nbody".data
      = .error .authenticationError :=
  ⟨rfl,
   (http_status_mapping "HTTP/1.0 401 Unauthorized\r\nA: b\r\n\r\nbody".data
      8 401 31 rfl rfl rfl).1 rfl⟩

/-- C5: `value(key, default)` returns the default when the receiver is not an
object, when the key is absent, when the key maps to null, and when the
stored kind cannot convert to the default's type — at each of the four
default types the consumer uses (bool, `int64_t`, double, C string).  The
functions are total, so no case can throw. -/
theorem value_default_behavior (f2i : F → Int) (i2f : Int → F)
    (j : Jval F) (key : Str) (db : Bool) (di : Int) (df : F) (ds : Str) :
    (isObjB j = false →
      valueB j key db = db ∧ valueI f2i j key di = di ∧
      valueF i2f j key df = df ∧ valueS j key ds = ds) ∧
    (∀ ms, j = .obj ms → mapFind key ms = none →
      valueB j key db = db ∧ valueI f2i j key di = di ∧
      valueF i2f j key df = df ∧ valueS j key ds = ds) ∧
    (∀ ms, j = .obj ms → mapFind key ms = some .null →
      valueB j key db = db ∧ valueI f2i j key di = di ∧
      valueF i2f j key df = df ∧ valueS j key ds = ds) ∧
    (∀ ms v, j = .obj ms → mapFind key ms = some v →
      (∀ e, getB v = .error e → valueB j key db = db) ∧
      (∀ e, getI f2i v = .error e → valueI f2i j key di = di) ∧
      (∀ e, getFl i2f v = .error e → valueF i2f j key df = df) ∧
      (isStrB v = false → valueS j key ds = ds)) := by
  refine ⟨?_, ?_, ?_, ?_⟩
  · intro h
    cases j <;> simp_all [isObjB, valueB, valueI, valueF, valueS]
  · rintro ms rfl hf
    simp [valueB, valueI, valueF, valueS, hf]
  · rintro ms rfl hf
    simp [valueB, valueI, valueF, valueS, hf]
  · rintro ms v rfl hf
    refine ⟨?_, ?_, ?_, ?_⟩
    · intro e he
      cases v <;> simp_all [valueB, hf, getB]
    · intro e he
      cases v <;> simp_all [valueI, hf, getI]
    · intro e he
      cases v <;> simp_all [valueF, hf, getFl]
    · intro h
      cases v <;> simp_all [valueS, hf, isStrB]

/-- C5 witness: the four defaulting cases at concrete inputs. -/
theorem value_default_witness :
    (valueB (Jval.arr [] : Jval Unit) "k".data true = true ∧
      valueI opsU.f2i (Jval.arr [] : Jval Unit) "k".data 7 = 7) ∧
    valueI opsU.f2i (Jval.obj [("x".data, Jval.int 1)] : Jval Unit) "k".data 9 = 9 ∧
    valueI opsU.f2i (Jval.obj [("k".data, Jval.null)] : Jval Unit) "k".data 5 = 5 ∧
    valueI opsU.f2i (Jval.obj [("k".data, Jval.bool true)] : Jval Unit) "k".data 3 = 3 := by
  refine ⟨⟨?_, ?_⟩, ?_, ?_, ?_⟩
  · exact ((value_default_behavior opsU.f2i opsU.i2f (Jval.arr [])
      "k".data true 7 () []).1 rfl).1
  · exact ((value_default_behavior opsU.f2i opsU.i2f (Jval.arr [])
      "k".data true 7 () []).1 rfl).2.1
  · exact ((value_default_behavior opsU.f2i opsU.i2f
      (Jval.obj [("x".data, Jval.int 1)]) "k".data true 9 () []).2.1 _ rfl rfl).2.1
  · exact ((value_default_behavior opsU.f2i opsU.i2f
      (Jval.obj [("k".data, Jval.null)]) "k".data true 5 () []).2.2.1 _ rfl rfl).2.1
  · exact ((value_default_behavior opsU.f2i opsU.i2f
      (Jval.obj [("k".data, Jval.bool true)]) "k".data true 3 () []).2.2.2 _
      (Jval.bool true) rfl rfl).2.1 .getIntNonNumber rfl

/-- C7 counterexample: the claim says a write through `operator[]` on any
non-container fails with a `TypeError`, but a string-keyed write on a Null
value succeeds — the receiver is silently turned into an object (the code's
own tests rely on this: `json o; o["x"] = 10;`). -/
theorem index_write_null_succeeds :
    isObjB (Jval.null : Jval Unit) = false ∧
    isArrB (Jval.null : Jval Unit) = false ∧
    setKeyM (Jval.null : Jval Unit) "a".data (Jval.int 1)
      = .ok (Jval.obj [("a".data, Jval.int 1)]) :=
  ⟨rfl, rfl, rfl⟩

/-- C7 (amended): a string-keyed write through `operator[]` fails with a
`TypeError` exactly when the receiver is neither an object nor null (a null
receiver auto-vivifies into an object); an index write requires an array;
const string-keyed reads on a non-object receiver or a missing key return
the shared Null singleton and never fail. -/
theorem index_access_behavior (j : Jval F) (key : Str) (v : Jval F) :
    (isObjB j = false → isNullB j = false →
      setKeyM j key v = .error .opIndexNonObject) ∧
    (setKeyM (.null : Jval F) key v = .ok (.obj [(key, v)])) ∧
    (isArrB j = false → setIdxGate j = .error .opIndexNonArray) ∧
    (isObjB j = false → getKeyC j key = .null) ∧
    (∀ ms, j = .obj ms → mapFind key ms = none → getKeyC j key = .null) := by
  refine ⟨?_, rfl, ?_, ?_, ?_⟩
  · intro h1 h2
    cases j <;> simp_all [isObjB, isNullB, setKeyM]
  · intro h
    cases j <;> simp_all [isArrB, setIdxGate]
  · intro h
    cases j <;> simp_all [isObjB, getKeyC]
  · rintro ms rfl hf
    simp [getKeyC, hf]

/-- C7 witness: a write and an indexed write on an integer value fail, and
reads of a missing key and through a non-object receiver yield Null. -/
theorem index_access_witness :
    setKeyM (Jval.int 7 : Jval Unit) "k".data (Jval.int 1)
      = .error .opIndexNonObject ∧
    setIdxGate (Jval.int 7 : Jval Unit) = .error .opIndexNonArray ∧
    getKeyC (Jval.int 7 : Jval Unit) "k".data = .null ∧
    getKeyC (Jval.obj [("x".data, Jval.int 1)] : Jval Unit) "k".data = .null :=
  ⟨(index_access_behavior (Jval.int 7) "k".data (Jval.int 1)).1 rfl rfl,
   (index_access_behavior (Jval.int 7) "k".data (Jval.int 1)).2.2.1 rfl,
   (index_access_behavior (Jval.int 7) "k".data (Jval.int 1)).2.2.2.1 rfl,
   (index_access_behavior (Jval.obj [("x".data, Jval.int 1)]) "k".data
      (Jval.int 1)).2.2.2.2 _ rfl rfl⟩

/-- C6: `parse` fails with the dedicated `json::exception` on each of the
claimed malformed-input classes: unexpected end of input, mismatched
delimiters (in both container kinds), invalid literal keywords, malformed
escape sequences (bad hex, truncated escape, unterminated string), and
trailing non-whitespace content after a complete top-level value. -/
theorem parse_failure_cases :
    jparse rdU [chLBrace] = .error .unexpectedEnd ∧
    jparse rdU ['[', '1', chRBrace] = .error .badArrSep ∧
    jparse rdU (chLBrace :: chQuote :: 'a' :: chQuote :: ':' :: '1' :: [']'])
      = .error .badObjSep ∧
    jparse rdU "tru".data = .error (.badLiteral "true".data) ∧
    jparse rdU "falze".data = .error (.badLiteral "false".data) ∧
    jparse rdU "nul".data = .error (.badLiteral "null".data) ∧
    jparse rdU [chQuote, chBackslash, 'u', '1', '2', 'g', '4', chQuote]
      = .error .badHexEscape ∧
    jparse rdU [chQuote, chBackslash, 'u', '1', '2'] = .error .truncatedUnicodeEscape ∧
    jparse rdU (chQuote :: "abc".data) = .error .unterminatedString ∧
    jparse rdU "0 0".data = .error .trailing :=
  ⟨rfl, rfl, rfl, rfl, rfl, rfl, rfl, rfl, rfl, rfl⟩

/-- C10: submitting the global search box trims the buffer, always closes
the box and clears it, never touches the search state, and starts a lookup
only when the trimmed text is a valid txid (exactly 64 hexadecimal
characters) or a valid height (non-empty, at most 8 decimal digits); any
other submission starts nothing. -/
theorem search_submit_spec (ss : TxS F) (buf : Str) :
    (onSearchReturn ss buf).active = false ∧
    (onSearchReturn ss buf).buf = [] ∧
    (onSearchReturn ss buf).search_state = ss ∧
    (∀ q, (onSearchReturn ss buf).submitted = some q →
      q = trimmedQ buf ∧ (isTxidQ q = true ∨ isHeightQ q = true)) ∧
    (isTxidQ (trimmedQ buf) = false → isHeightQ (trimmedQ buf) = false →
      (onSearchReturn ss buf).submitted = none) ∧
    (∀ s : Str, isTxidQ s = true ↔ s.length = 64 ∧ ∀ c ∈ s, isXdigitB c = true) ∧
    (∀ s : Str, isHeightQ s = true ↔
      s ≠ [] ∧ s.length ≤ 8 ∧ ∀ c ∈ s, isDigitB c = true) := by
  refine ⟨rfl, rfl, rfl, ?_, ?_, ?_, ?_⟩
  · intro q hq
    by_cases h : (isTxidQ (trimmedQ buf) || isHeightQ (trimmedQ buf)) = true
    · simp only [onSearchReturn, h, if_pos] at hq
      rcases Bool.or_eq_true _ _ |>.mp h with h1 | h1
      · exact ⟨(Option.some.inj hq).symm, Or.inl (by simpa [← Option.some.inj hq] using h1)⟩
      · exact ⟨(Option.some.inj hq).symm, Or.inr (by simpa [← Option.some.inj hq] using h1)⟩
    · simp [onSearchReturn, h] at hq
  · intro h1 h2
    simp [onSearchReturn, h1, h2]
  · intro s
    simp [isTxidQ, List.all_eq_true]
  · intro s
    simp only [isHeightQ, List.all_eq_true, List.isEmpty_iff, Bool.and_eq_true,
      Bool.not_eq_eq_eq_not, Bool.not_true, decide_eq_true_eq]
    constructor
    · rintro ⟨⟨h1, h2⟩, h3⟩
      exact ⟨by simpa using h1, h2, h3⟩
    · rintro ⟨h1, h2, h3⟩
      exact ⟨⟨by simpa using h1, h2⟩, h3⟩

/-- C10 witness: a malformed submission starts nothing; a valid height
submission starts a lookup for the trimmed text. -/
theorem search_submit_witness :
    isTxidQ (trimmedQ "xy0".data) = false ∧
    (onSearchReturn (mkTxS0 opsU) "xy0".data).submitted = none ∧
    ((onSearchReturn (mkTxS0 opsU) " 123 ".data).submitted = some "123".data →
      "123".data = trimmedQ " 123 ".data ∧
        (isTxidQ "123".data = true ∨ isHeightQ "123".data = true)) :=
  ⟨rfl,
   (search_submit_spec (mkTxS0 opsU) "xy0".data).2.2.2.2.1 rfl rfl,
   (search_submit_spec (mkTxS0 opsU) " 123 ".data).2.2.2.1 "123".data⟩

/-- Each `freshGo` iteration adds at most one block per unit of loop
budget. -/
theorem freshGo_length_le (fetch : Int → Option BlockStat) (tip : Int) :
    ∀ fuel i, (freshGo fetch tip fuel i).length ≤ fuel := by
  intro fuel
  induction fuel with
  | zero => intro i; simp [freshGo]
  | succ n ih =>
    intro i
    unfold freshGo
    split
    · cases fetch (tip - (i : Int)) with
      | some b => simpa using Nat.succ_le_succ (ih (i + 1))
      | none => simp
    · simp

/-- C9: the Phase-1 commit (and likewise the Phase-1 failure path) leaves the
recent-block list, its fetched-at height, the animation sub-state and the
refresh flag untouched; conversely Phase 2 touches none of the chain /
network / mempool / peer / hash-rate / status fields, so the block fields
are modified only in Phase 2. -/
theorem phase1_frame (ops : FOps F) (st : AppState F) (bc net mp pi : Jval F)
    (now msg : Str) (fetch : Int → Option BlockStat) (cached tip : Int) :
    ((phase1Commit ops st bc net mp pi now).recent_blocks = st.recent_blocks ∧
     (phase1Commit ops st bc net mp pi now).blocks_fetched_at = st.blocks_fetched_at ∧
     (phase1Commit ops st bc net mp pi now).block_anim_active = st.block_anim_active ∧
     (phase1Commit ops st bc net mp pi now).block_anim_frame = st.block_anim_frame ∧
     (phase1Commit ops st bc net mp pi now).block_anim_old = st.block_anim_old ∧
     (phase1Commit ops st bc net mp pi now).refreshing = st.refreshing) ∧
    ((phase1Fail st msg now).recent_blocks = st.recent_blocks ∧
     (phase1Fail st msg now).blocks_fetched_at = st.blocks_fetched_at ∧
     (phase1Fail st msg now).block_anim_active = st.block_anim_active ∧
     (phase1Fail st msg now).block_anim_frame = st.block_anim_frame ∧
     (phase1Fail st msg now).block_anim_old = st.block_anim_old ∧
     (phase1Fail st msg now).refreshing = st.refreshing) ∧
    ((phase2Run fetch cached tip st).chain = st.chain ∧
     (phase2Run fetch cached tip st).blocks = st.blocks ∧
     (phase2Run fetch cached tip st).headers = st.headers ∧
     (phase2Run fetch cached tip st).difficulty = st.difficulty ∧
     (phase2Run fetch cached tip st).progress = st.progress ∧
     (phase2Run fetch cached tip st).pruned = st.pruned ∧
     (phase2Run fetch cached tip st).ibd = st.ibd ∧
     (phase2Run fetch cached tip st).bestblockhash = st.bestblockhash ∧
     (phase2Run fetch cached tip st).connections = st.connections ∧
     (phase2Run fetch cached tip st).connections_in = st.connections_in ∧
     (phase2Run fetch cached tip st).connections_out = st.connections_out ∧
     (phase2Run fetch cached tip st).subversion = st.subversion ∧
     (phase2Run fetch cached tip st).protocol_version = st.protocol_version ∧
     (phase2Run fetch cached tip st).network_active = st.network_active ∧
     (phase2Run fetch cached tip st).relay_fee = st.relay_fee ∧
     (phase2Run fetch cached tip st).mempool_tx = st.mempool_tx ∧
     (phase2Run fetch cached tip st).mempool_bytes = st.mempool_bytes ∧
     (phase2Run fetch cached tip st).mempool_usage = st.mempool_usage ∧
     (phase2Run fetch cached tip st).mempool_max = st.mempool_max ∧
     (phase2Run fetch cached tip st).mempool_min_fee = st.mempool_min_fee ∧
     (phase2Run fetch cached tip st).total_fee = st.total_fee ∧
     (phase2Run fetch cached tip st).network_hashps = st.network_hashps ∧
     (phase2Run fetch cached tip st).peers = st.peers ∧
     (phase2Run fetch cached tip st).last_update = st.last_update ∧
     (phase2Run fetch cached tip st).error_message = st.error_message ∧
     (phase2Run fetch cached tip st).connected = st.connected ∧
     (phase2Run fetch cached tip st).refreshing = st.refreshing) := by
  refine ⟨⟨rfl, rfl, rfl, rfl, rfl, rfl⟩, ⟨rfl, rfl, rfl, rfl, rfl, rfl⟩, ?_⟩
  unfold phase2Run
  split
  · split <;> simp
  · simp

/-- C2 (amended): on a poll cycle whose Phase 1 succeeded, if the fresh tip
equals the height cached at the last successful block-list fetch, Phase 2 is
skipped and the block list, its fetched-at height and the animation
sub-state are unchanged; if the tip differs *and is positive*, the fresh
list (up to 20 statistics, requested for heights counting down from the tip)
replaces the old one, the fetched-at height becomes the tip, and the slide
animation is snapshotted / reset / activated exactly when both the previous
and the fresh list are non-empty. -/
theorem poll_phase2_gate (ops : FOps F) (st0 : AppState F) (bc net mp pi : Jval F)
    (now : Str) (fetch : Int → Option BlockStat) (tip : Int)
    (htip : valueI ops.f2i bc "blocks".data 0 = tip) :
    (tip = st0.blocks_fetched_at →
      (pollSuccess ops st0 bc net mp pi now fetch).recent_blocks = st0.recent_blocks ∧
      (pollSuccess ops st0 bc net mp pi now fetch).blocks_fetched_at
        = st0.blocks_fetched_at ∧
      (pollSuccess ops st0 bc net mp pi now fetch).block_anim_active
        = st0.block_anim_active ∧
      (pollSuccess ops st0 bc net mp pi now fetch).block_anim_frame
        = st0.block_anim_frame ∧
      (pollSuccess ops st0 bc net mp pi now fetch).block_anim_old
        = st0.block_anim_old) ∧
    (tip ≠ st0.blocks_fetched_at → 0 < tip →
      (pollSuccess ops st0 bc net mp pi now fetch).recent_blocks
        = freshBlocks fetch tip ∧
      (pollSuccess ops st0 bc net mp pi now fetch).blocks_fetched_at = tip ∧
      (freshBlocks fetch tip).length ≤ 20 ∧
      (st0.recent_blocks ≠ [] → freshBlocks fetch tip ≠ [] →
        (pollSuccess ops st0 bc net mp pi now fetch).block_anim_active = true ∧
        (pollSuccess ops st0 bc net mp pi now fetch).block_anim_old
          = st0.recent_blocks ∧
        (pollSuccess ops st0 bc net mp pi now fetch).block_anim_frame = 0) ∧
      (st0.recent_blocks = [] ∨ freshBlocks fetch tip = [] →
        (pollSuccess ops st0 bc net mp pi now fetch).block_anim_active
          = st0.block_anim_active ∧
        (pollSuccess ops st0 bc net mp pi now fetch).block_anim_old
          = st0.block_anim_old ∧
        (pollSuccess ops st0 bc net mp pi now fetch).block_anim_frame
          = st0.block_anim_frame)) := by
  unfold pollSuccess
  rw [htip]
  constructor
  · intro heq
    unfold phase2Run
    rw [if_neg (by simp [heq])]
    exact ⟨rfl, rfl, rfl, rfl, rfl⟩
  · intro hne hpos
    unfold phase2Run
    rw [if_pos ⟨by simpa using hne, hpos⟩]
    by_cases h2 : (phase1Commit ops st0 bc net mp pi now).recent_blocks ≠ [] ∧
      freshBlocks fetch tip ≠ []
    · rw [if_pos h2]
      refine ⟨rfl, rfl, freshGo_length_le fetch tip 20 0, ?_, ?_⟩
      · intro _ _
        exact ⟨rfl, rfl, rfl⟩
      · intro hcase
        exact absurd h2 (by
          rintro ⟨hprev, hfresh⟩
          rcases hcase with h | h
          · exact hprev h
          · exact hfresh h)
    · rw [if_neg h2]
      refine ⟨rfl, rfl, freshGo_length_le fetch tip 20 0, ?_, ?_⟩
      · intro hprev hfresh
        exact absurd (⟨hprev, hfresh⟩ :
          (phase1Commit ops st0 bc net mp pi now).recent_blocks ≠ [] ∧
            freshBlocks fetch tip ≠ []) h2
      · intro _
        exact ⟨rfl, rfl, rfl⟩

/-- C2 counterexample: at the freshly started state (`blocks_fetched_at`
is −1) a daemon at height 0 reports a tip that differs from the cached
height, and a fresh fetch would return one block statistic, yet Phase 2 does
not run: the block list and the fetched-at height stay unchanged, because
the code additionally requires `new_tip > 0`. -/
theorem poll_skip_at_zero_tip :
    valueI opsU.f2i (wBcTip 0) "blocks".data 0 ≠ stInit.blocks_fetched_at ∧
    freshBlocks wFetch (valueI opsU.f2i (wBcTip 0) "blocks".data 0)
      = [{ height := 0 }] ∧
    (pollSuccess opsU stInit (wBcTip 0) .null .null .null [] wFetch).recent_blocks
      = [] ∧
    (pollSuccess opsU stInit (wBcTip 0) .null .null .null [] wFetch).blocks_fetched_at
      = -1 := by
  refine ⟨?_, rfl, rfl, rfl⟩
  intro h
  exact absurd h (by decide)

/-- C2 witness: with a daemon at height 5 and the freshly started state the
tip differs, the list is replaced by the fresh fetch and the fetched-at
height becomes 5. -/
theorem poll_phase2_witness :
    (5 : Int) ≠ stInit.blocks_fetched_at ∧
    (pollSuccess opsU stInit (wBcTip 5) .null .null .null [] wFetch).recent_blocks
      = freshBlocks wFetch 5 ∧
    (pollSuccess opsU stInit (wBcTip 5) .null .null .null [] wFetch).blocks_fetched_at
      = 5 := by
  have h := (poll_phase2_gate opsU stInit (wBcTip 5) .null .null .null [] wFetch
    5 rfl).2 (by decide) (by decide)
  exact ⟨by decide, h.1, h.2.1⟩

/-- C3 (amended): a non-height query whose mempool-entry lookup fails and
whose confirmed-transaction lookup succeeds classifies as Confirmed (never
Block, Mempool or Error), performs exactly the two lookups — the block-hash
fallback is not attempted — and its derived block height is
`tip − confirmations + 1` when both the recorded tip and the confirmation
count are positive, while otherwise the −1 sentinel is kept. -/
theorem confirmed_tx_path (ops : FOps F) (oracle : Oracle F) (q : Str)
    (tip : Int) (em : Str) (tx : Jval F)
    (h1 : callResult oracle "getmempoolentry".data [.str q] = .error em)
    (h2 : callResult oracle "getrawtransaction".data [.str q, .bool true] = .ok tx) :
    classifyResult (performTxSearch ops oracle q false tip).1 = .confirmed ∧
    (performTxSearch ops oracle q false tip).2
      = ["getmempoolentry".data, "getrawtransaction".data] ∧
    "getblock".data ∉ (performTxSearch ops oracle q false tip).2 ∧
    (performTxSearch ops oracle q false tip).1.confirmations
      = valueI ops.f2i tx "confirmations".data 0 ∧
    (0 < tip → 0 < (performTxSearch ops oracle q false tip).1.confirmations →
      (performTxSearch ops oracle q false tip).1.block_height
        = tip - (performTxSearch ops oracle q false tip).1.confirmations + 1) ∧
    (¬(0 < tip ∧ 0 < valueI ops.f2i tx "confirmations".data 0) →
      (performTxSearch ops oracle q false tip).1.block_height = -1) := by
  refine ⟨?_, ?_, ?_, ?_, ?_, ?_⟩
  · unfold performTxSearch
    simp only [Bool.false_eq_true, if_false, h1, h2]
    rfl
  · unfold performTxSearch
    simp only [Bool.false_eq_true, if_false, h1, h2]
  · unfold performTxSearch
    simp only [Bool.false_eq_true, if_false, h1, h2]
    decide
  · unfold performTxSearch
    simp only [Bool.false_eq_true, if_false, h1, h2]
  · intro hpos hconf
    unfold performTxSearch at hconf ⊢
    simp only [Bool.false_eq_true, if_false, h1, h2] at hconf ⊢
    rw [if_pos ⟨hpos, hconf⟩]
  · intro hng
    unfold performTxSearch
    simp only [Bool.false_eq_true, if_false, h1, h2]
    rw [if_neg hng]
    rfl

/-- C3 counterexample: before the first poll completes the recorded tip is
0, and a confirmed lookup with 3 confirmations keeps the −1 sentinel instead
of deriving `tip − confirmations + 1 = −2`: the formula additionally
requires `tip > 0`. -/
theorem confirmed_height_zero_tip :
    0 < (performTxSearch opsU wOracleC3 "ab".data false 0).1.confirmations ∧
    (performTxSearch opsU wOracleC3 "ab".data false 0).1.block_height
      ≠ 0 - (performTxSearch opsU wOracleC3 "ab".data false 0).1.confirmations + 1 := by
  constructor
  · show (0 : Int) < 3
    norm_num
  · show (-1 : Int) ≠ 0 - 3 + 1
    norm_num

/-- C3 witness: the same endpoint at tip 100 classifies Confirmed, calls
only the two lookup methods, and derives block height 98. -/
theorem confirmed_tx_witness :
    classifyResult (performTxSearch opsU wOracleC3 "ab".data false 100).1
      = .confirmed ∧
    (performTxSearch opsU wOracleC3 "ab".data false 100).2
      = ["getmempoolentry".data, "getrawtransaction".data] ∧
    "getblock".data ∉ (performTxSearch opsU wOracleC3 "ab".data false 100).2 ∧
    (performTxSearch opsU wOracleC3 "ab".data false 100).1.block_height = 98 := by
  have h := confirmed_tx_path opsU wOracleC3 "ab".data 100 "not in mempool".data
    (Jval.obj [("confirmations".data, Jval.int 3), ("vsize".data, Jval.int 150)])
    rfl rfl
  have hc : (performTxSearch opsU wOracleC3 "ab".data false 100).1.confirmations
      = 3 := rfl
  have hb := h.2.2.2.2.1 (by norm_num) (by rw [hc]; norm_num)
  rw [hc] at hb
  exact ⟨h.1, h.2.1, h.2.2.1, by rw [hb]; norm_num⟩

/-- Interleaving hex decoding with the run scan is the same as decoding
first and scanning the bytes. -/
theorem minerGo_decode (hex : Str) : ∀ bs run best, decodePairs hex = .ok bs →
    minerGo hex run best = .ok (minerFoldPure bs run best) := by
  induction hex using decodePairs.induct with
  | case1 c1 c2 rest e hsp =>
    intro bs run best hdec
    simp [decodePairs, hsp] at hdec
  | case2 c1 c2 rest b hsp e hrest ih =>
    intro bs run best hdec
    simp [decodePairs, hsp, hrest] at hdec
  | case3 c1 c2 rest b hsp bs0 hrest ih =>
    intro bs run best hdec
    have hbs : bs = b :: bs0 := by
      simp [decodePairs, hsp, hrest] at hdec
      exact hdec.symm
    subst hbs
    unfold minerGo
    simp only [hsp]
    by_cases hp : printableB b
    · rw [if_pos hp]
      rw [ih bs0 (run ++ [b]) best hrest]
      simp only [minerFoldPure]
      rw [if_pos hp]
    · rw [if_neg hp]
      rw [ih bs0 [] (flushN run best) hrest]
      simp only [minerFoldPure]
      rw [if_neg hp]
  | case4 t ht =>
    intro bs run best hdec
    match t, ht with
    | [], _ =>
      have hbs : bs = [] := by
        simp [decodePairs] at hdec
        exact hdec
      subst hbs
      rfl
    | [c], _ =>
      have hbs : bs = [] := by
        simp [decodePairs] at hdec
        exact hdec
      subst hbs
      rfl
    | c1 :: c2 :: rest, ht => exact absurd rfl (ht c1 c2 rest)

/-- The run scan equals a fold of the flush step over the maximal printable
runs (with a partial run carried in by the accumulator). -/
theorem minerFold_runs : ∀ (bs : List Nat) (run best : List Nat),
    minerFoldPure bs run best
      = (runsOfAux bs run.reverse).foldl (fun b r => flushN r b) best := by
  intro bs
  induction bs with
  | nil =>
    intro run best
    unfold minerFoldPure runsOfAux
    cases run with
    | nil => simp [flushN]
    | cons r rs => simp
  | cons b bs ih =>
    intro run best
    unfold minerFoldPure runsOfAux
    by_cases hp : printableB b
    · rw [if_pos hp, if_pos hp]
      rw [ih (run ++ [b]) best]
      simp
    · rw [if_neg hp, if_neg hp]
      cases run with
      | nil =>
        simp only [List.reverse_nil, if_pos rfl]
        have := ih [] (flushN [] best)
        simpa [flushN] using this
      | cons r rs =>
        rw [if_neg (by simp)]
        rw [List.foldl_cons]
        have := ih [] (flushN (r :: rs) best)
        simpa using this

/-- The fold of the flush step selects the first longest qualifying run. -/
theorem foldl_flush_max (rs : List (List Nat)) : ∀ best : List Nat,
    (rs.foldl (fun b r => flushN r b) best = best ∨
      (rs.foldl (fun b r => flushN r b) best ∈ rs ∧
        4 ≤ (rs.foldl (fun b r => flushN r b) best).length)) ∧
    best.length ≤ (rs.foldl (fun b r => flushN r b) best).length ∧
    (∀ r ∈ rs, 4 ≤ r.length →
      r.length ≤ (rs.foldl (fun b r => flushN r b) best).length) := by
  induction rs with
  | nil => intro best; simp
  | cons r rs ih =>
    intro best
    rw [List.foldl_cons]
    obtain ⟨ihm, ihlen, ihmax⟩ := ih (flushN r best)
    by_cases hc : 4 ≤ r.length ∧ best.length < r.length
    · have hfr : flushN r best = r := if_pos hc
      rw [hfr] at ihm ihlen ihmax ⊢
      refine ⟨?_, ?_, ?_⟩
      · rcases ihm with h | h
        · exact Or.inr ⟨by rw [h]; exact List.mem_cons_self r rs, by rw [h]; exact hc.1⟩
        · exact Or.inr ⟨List.mem_cons_of_mem r h.1, h.2⟩
      · exact le_trans (le_of_lt hc.2) ihlen
      · intro r2 hr2 hq
        rcases List.mem_cons.mp hr2 with rfl | hr2
        · exact ihlen
        · exact ihmax r2 hr2 hq
    · have hfr : flushN r best = best := if_neg hc
      rw [hfr] at ihm ihlen ihmax ⊢
      refine ⟨?_, ihlen, ?_⟩
      · rcases ihm with h | h
        · exact Or.inl h
        · exact Or.inr ⟨List.mem_cons_of_mem r h.1, h.2⟩
      · intro r2 hr2 hq
        rcases List.mem_cons.mp hr2 with rfl | hr2
        · have : ¬ best.length < r2.length := fun hlt => hc ⟨hq, hlt⟩
          exact le_trans (Nat.le_of_not_lt this) ihlen
        · exact ihmax r2 hr2 hq

/-- C8: for every coinbase hex string that decodes, `extract_miner` returns
exactly the claim's tag over the decoded bytes: the first longest printable
run (excluding the slash), counted only when at least 4 bytes long,
truncated to 24 characters, and the placeholder when no run qualifies. -/
theorem miner_tag_correct (hex : Str) (bs : List Nat)
    (hdec : decodePairs hex = .ok bs) :
    extractMiner hex = .ok (minerTagSpec bs) ∧
    (minerTagSpec bs).length ≤ 24 ∧
    ((printableRuns bs).foldl (fun b r => flushN r b) [] = [] →
      minerTagSpec bs = emDash) ∧
    (∀ best, best = (printableRuns bs).foldl (fun b r => flushN r b) [] →
      best ≠ [] →
      4 ≤ best.length ∧ best ∈ printableRuns bs ∧
        (∀ r ∈ printableRuns bs, 4 ≤ r.length → r.length ≤ best.length) ∧
        minerTagSpec bs = (best.take 24).map Char.ofNat) := by
  have hgo : minerGo hex [] [] = .ok (minerFoldPure bs [] []) :=
    minerGo_decode hex bs [] [] hdec
  have hfold : minerFoldPure bs [] []
      = (printableRuns bs).foldl (fun b r => flushN r b) [] := by
    rw [minerFold_runs bs [] []]
    rfl
  refine ⟨?_, ?_, ?_, ?_⟩
  · unfold extractMiner
    rw [hgo]
    simp only [hfold, minerTagSpec]
    by_cases h24 : 24 < ((printableRuns bs).foldl (fun b r => flushN r b) []).length
    · rw [if_pos h24]
    · rw [if_neg h24]
      rw [List.take_of_length_le (Nat.le_of_not_lt h24)]
  · unfold minerTagSpec
    by_cases he : ((printableRuns bs).foldl (fun b r => flushN r b) []).take 24 = []
    · rw [if_pos he]
      decide
    · rw [if_neg he]
      simp [List.length_take]
  · intro h0
    unfold minerTagSpec
    rw [h0]
    rfl
  · intro best hbest hne
    obtain ⟨hm, _, hmax⟩ := foldl_flush_max (printableRuns bs) []
    rw [← hbest] at hm hmax
    rcases hm with h | h
    · exact absurd h hne
    · refine ⟨h.2, h.1, hmax, ?_⟩
      unfold minerTagSpec
      rw [← hbest]
      rw [if_neg (by
        intro hx
        rcases List.take_eq_nil_iff.mp hx with h1 | h1 <;> simp_all)]

/-- C8 witness: the hex string decoding to a 10-character printable run
surrounded by shorter noise runs yields exactly that run as the miner tag. -/
theorem miner_tag_witness :
    decodePairs wMinerHex = .ok wMinerBytes ∧
    extractMiner wMinerHex = .ok (minerTagSpec wMinerBytes) ∧
    minerTagSpec wMinerBytes = "MinerPool9".data :=
  ⟨rfl, (miner_tag_correct wMinerHex wMinerBytes rfl).1, rfl⟩

/-- Bytes below the surrogate range survive the `Char` round trip. -/
theorem char_toNat_ofNat (m : Nat) (h : m < 55296) : (Char.ofNat m).toNat = m := by
  have hv : Nat.isValidChar m := Or.inl h
  rw [Char.ofNat, dif_pos hv]
  rw [Char.ofNatAux]
  simp [Char.toNat, UInt32.toNat, BitVec.toNat_ofNatLt]

/-- Characters with the same code point are equal. -/
theorem char_eq_of_toNat (a b : Char) (h : a.toNat = b.toNat) : a = b :=
  Char.ext (UInt32.ext h)

/-- Digit test in terms of the code point. -/
theorem isDigitB_iff (c : Char) : isDigitB c = true ↔ 48 ≤ c.toNat ∧ c.toNat ≤ 57 := by
  simp only [isDigitB, Bool.and_eq_true, decide_eq_true_eq, Char.le_def]
  constructor
  · rintro ⟨h1, h2⟩
    exact ⟨h1, h2⟩
  · rintro ⟨h1, h2⟩
    exact ⟨h1, h2⟩

/-- A digit or minus-sign head of a number token matches none of the other
branches of `parse_value` and is not whitespace. -/
theorem numHead_props (c : Char) (h : c = '-' ∨ isDigitB c = true) :
    isWsChar c = false ∧ c ≠ chQuote ∧ c ≠ chLBrace ∧ c ≠ '[' ∧ c ≠ 't' ∧
      c ≠ 'f' ∧ c ≠ 'n' ∧ c ≠ ']' ∧ c ≠ chRBrace ∧ c ≠ ',' := by
  rcases h with rfl | hd
  · refine ⟨rfl, ?_, ?_, ?_, ?_, ?_, ?_, ?_, ?_, ?_⟩ <;> decide
  · have hn := (isDigitB_iff c).mp hd
    refine ⟨?_, ?_, ?_, ?_, ?_, ?_, ?_, ?_, ?_, ?_⟩
    · simp only [isWsChar, Bool.or_eq_false_iff, decide_eq_false_iff_not]
      refine ⟨⟨⟨fun he => ?_, by omega⟩, by omega⟩, by omega⟩
      rw [he] at hn
      exact absurd hn (by decide)
    all_goals
      intro he
      rw [he] at hn
      exact absurd hn (by decide)

/-- Every character emitted by `natToRevDigits` is a decimal digit. -/
theorem natToRevDigits_digits :
    ∀ fuel n c, c ∈ natToRevDigits fuel n → isDigitB c = true := by
  intro fuel
  induction fuel with
  | zero => intro n c hc; simp [natToRevDigits] at hc
  | succ f ih =>
    intro n c hc
    unfold natToRevDigits at hc
    have hdig : ∀ m : Nat, isDigitB (digitChar m) = true := by
      intro m
      rw [isDigitB_iff]
      unfold digitChar
      rw [char_toNat_ofNat _ (by omega)]
      omega
    by_cases h : n < 10
    · rw [if_pos h] at hc
      simp at hc
      rw [hc]
      exact hdig n
    · rw [if_neg h] at hc
      rcases List.mem_cons.mp hc with rfl | hc2
      · exact hdig n
      · exact ih (n / 10) c hc2

/-- `natToRevDigits` with positive fuel is non-empty. -/
theorem natToRevDigits_ne_nil (fuel n : Nat) (h : 0 < fuel) :
    natToRevDigits fuel n ≠ [] := by
  cases fuel with
  | zero => omega
  | succ f =>
    unfold natToRevDigits
    by_cases hn : n < 10
    · rw [if_pos hn]; simp
    · rw [if_neg hn]; simp

/-- Every character of `natDump` is a decimal digit. -/
theorem natDump_digits (n : Nat) : ∀ c ∈ natDump n, isDigitB c = true := by
  intro c hc
  exact natToRevDigits_digits (n + 1) n c (List.mem_reverse.mp hc)

/-- `natDump` is non-empty. -/
theorem natDump_ne_nil (n : Nat) : natDump n ≠ [] := by
  unfold natDump
  intro h
  exact natToRevDigits_ne_nil (n + 1) n (by omega) (by simpa using h)

/-- Reading the emitted digits back, least significant first. -/
theorem foldr_natToRevDigits :
    ∀ fuel n, n < fuel →
      (natToRevDigits fuel n).foldr (fun c acc => acc * 10 + (c.toNat - 48)) 0 = n := by
  intro fuel
  induction fuel with
  | zero => omega
  | succ f ih =>
    intro n hn
    unfold natToRevDigits
    have hdc : (digitChar n).toNat = 48 + n % 10 := by
      unfold digitChar
      exact char_toNat_ofNat _ (by omega)
    by_cases h : n < 10
    · rw [if_pos h]
      simp [hdc]
      omega
    · rw [if_neg h]
      rw [List.foldr_cons]
      rw [ih (n / 10) (by omega)]
      rw [hdc]
      omega

/-- `std::to_string` followed by digit folding is the identity. -/
theorem digitsVal_natDump (n : Nat) : digitsVal (natDump n) = n := by
  unfold digitsVal natDump
  rw [List.foldl_reverse]
  exact foldr_natToRevDigits (n + 1) n (by omega)

/-- `takeWhile` passes over a prefix it accepts entirely. -/
theorem takeWhile_app_all (p : Char → Bool) :
    ∀ l rest : Str, (∀ c ∈ l, p c = true) →
      (l ++ rest).takeWhile p = l ++ rest.takeWhile p := by
  intro l
  induction l with
  | nil => intro rest h; simp
  | cons c cs ih =>
    intro rest h
    rw [List.cons_append, List.takeWhile_cons, if_pos (h c (List.mem_cons_self c cs))]
    rw [ih rest (fun x hx => h x (List.mem_cons_of_mem c hx))]
    rfl

/-- `dropWhile` drops a prefix it accepts entirely. -/
theorem dropWhile_app_all (p : Char → Bool) :
    ∀ l rest : Str, (∀ c ∈ l, p c = true) →
      (l ++ rest).dropWhile p = rest.dropWhile p := by
  intro l
  induction l with
  | nil => intro rest h; simp
  | cons c cs ih =>
    intro rest h
    rw [List.cons_append, List.dropWhile_cons, if_pos (h c (List.mem_cons_self c cs))]
    exact ih rest (fun x hx => h x (List.mem_cons_of_mem c hx))

/-- `skip_ws` keeps a non-whitespace head in place. -/
theorem skipWs_cons_not (c : Char) (cs : Str) (h : isWsChar c = false) :
    skipWs (c :: cs) = c :: cs := by
  unfold skipWs
  rw [h]
  simp

/-- A head other than the minus sign is not consumed by `scanSign`. -/
theorem scanSign_not (c : Char) (t : Str) (h : c ≠ '-') :
    scanSign (c :: t) = ([], c :: t) := by
  unfold scanSign
  split
  · next u heq =>
    exact absurd (List.cons.injEq _ _ _ _ ▸ heq).1 h
  · rfl

/-- The tokens that may legally follow a serialized value stop the digit
scanner, the fraction scanner and the exponent scanner. -/
theorem restOk_facts (rest : Str) (hrest : RestOk rest) :
    rest.takeWhile isDigitB = [] ∧ rest.dropWhile isDigitB = rest ∧
    scanFrac rest = ([], false, rest) ∧ scanExp rest = ([], false, rest) := by
  rcases hrest with rfl | ⟨c, cs, rfl, hc⟩
  · exact ⟨rfl, rfl, rfl, rfl⟩
  · rcases hc with rfl | rfl | rfl <;> exact ⟨rfl, rfl, rfl, rfl⟩

/-- An all-digit prefix is scanned in full. -/
theorem takeWhile_digits_self (nd : Str) (hd : ∀ c ∈ nd, isDigitB c = true) :
    nd.takeWhile isDigitB = nd := by
  conv_lhs => rw [← List.append_nil nd]
  rw [takeWhile_app_all isDigitB nd [] hd]
  simp

/-- An all-digit prefix is dropped in full. -/
theorem dropWhile_digits_self (nd : Str) (hd : ∀ c ∈ nd, isDigitB c = true) :
    nd.dropWhile isDigitB = [] := by
  conv_lhs => rw [← List.append_nil nd]
  rw [dropWhile_app_all isDigitB nd [] hd]
  simp

/-- `scanNumber` on an unsigned digit token followed by a legal
continuation. -/
theorem scanNumber_digits (nd rest : Str) (hd : ∀ c ∈ nd, isDigitB c = true)
    (hne : nd ≠ []) (hrest : RestOk rest) :
    scanNumber (nd ++ rest) = (nd, false, rest) := by
  obtain ⟨c0, cs0, rfl⟩ := List.exists_cons_of_ne_nil hne
  have hc0 : isDigitB c0 = true := hd c0 (List.mem_cons_self _ _)
  have hc0m : c0 ≠ '-' := by
    intro h
    rw [h] at hc0
    exact absurd hc0 (by decide)
  obtain ⟨htw, hdw, hfr, hex⟩ := restOk_facts rest hrest
  have hs : scanSign ((c0 :: cs0) ++ rest) = ([], (c0 :: cs0) ++ rest) :=
    scanSign_not c0 (cs0 ++ rest) hc0m
  simp only [scanNumber, hs, takeWhile_app_all isDigitB (c0 :: cs0) rest hd,
    dropWhile_app_all isDigitB (c0 :: cs0) rest hd, htw, hdw, hfr, hex,
    List.append_nil, List.nil_append, Bool.or_false]

/-- `scanNumber` on a serialized `int64_t` followed by a legal
continuation. -/
theorem scanNumber_intDump (i : Int) (rest : Str) (hrest : RestOk rest) :
    scanNumber (intDump i ++ rest) = (intDump i, false, rest) := by
  by_cases hi : i < 0
  · rw [intDump, if_pos hi]
    obtain ⟨htw, hdw, hfr, hex⟩ := restOk_facts rest hrest
    have hd := natDump_digits i.natAbs
    simp only [scanNumber, List.cons_append, scanSign,
      takeWhile_app_all isDigitB (natDump i.natAbs) rest hd,
      dropWhile_app_all isDigitB (natDump i.natAbs) rest hd, htw, hdw, hfr, hex,
      List.append_nil, List.nil_append, Bool.or_false]
  · rw [intDump, if_neg hi]
    exact scanNumber_digits (natDump i.natAbs) rest (natDump_digits _)
      (natDump_ne_nil _) hrest

/-- `std::stoll` reads `std::to_string` back, within the `int64_t` range. -/
theorem stollModel_intDump (i : Int) (hfit : intFits i) :
    stollModel (intDump i) = .ok i := by
  have hd := natDump_digits i.natAbs
  have hne := natDump_ne_nil i.natAbs
  have htw := takeWhile_digits_self (natDump i.natAbs) hd
  have hv := digitsVal_natDump i.natAbs
  by_cases hi : i < 0
  · rw [intDump, if_pos hi]
    have hsg : stollSign ('-' :: natDump i.natAbs) = (-1, natDump i.natAbs) := rfl
    simp only [stollModel, hsg, htw]
    rw [if_neg hne]
    have hval : (-1 : Int) * (digitsVal (natDump i.natAbs) : Int) = i := by
      rw [hv]
      omega
    rw [hval]
    rw [if_pos ⟨hfit.1, hfit.2⟩]
  · rw [intDump, if_neg hi]
    obtain ⟨c0, cs0, hnd⟩ := List.exists_cons_of_ne_nil hne
    have hc0 : isDigitB c0 = true := hd c0 (by rw [hnd]; exact List.mem_cons_self _ _)
    have hsg : stollSign (natDump i.natAbs) = (1, natDump i.natAbs) := by
      rw [hnd]
      unfold stollSign
      split
      · next u heq =>
        have : c0 = '-' := (List.cons.injEq _ _ _ _ ▸ heq).1
        rw [this] at hc0
        exact absurd hc0 (by decide)
      · next u heq =>
        have : c0 = '+' := (List.cons.injEq _ _ _ _ ▸ heq).1
        rw [this] at hc0
        exact absurd hc0 (by decide)
      · rfl
    simp only [stollModel, hsg, htw]
    rw [if_neg hne]
    have hval : (1 : Int) * (digitsVal (natDump i.natAbs) : Int) = i := by
      rw [hv]
      omega
    rw [hval]
    rw [if_pos ⟨hfit.1, hfit.2⟩]

/-- `parse_number` reads a serialized `int64_t` back. -/
theorem parseNumber_intDump (rd : Str → Option F) (i : Int) (rest : Str)
    (hfit : intFits i) (hrest : RestOk rest) :
    parseNumber rd (intDump i ++ rest) = .ok (.int i, rest) := by
  unfold parseNumber
  rw [scanNumber_intDump i rest hrest]
  simp only [stollModel_intDump i hfit, Bool.false_eq_true, if_false]

/-- The `\u` escape decoder inverts the hex digits the quoter emits. -/
theorem hexVal_hexDigit : ∀ d, d < 16 → hexVal (hexDigit d) = some d := by decide

@[simp] theorem chBS_ne_chQ : (chBackslash = chQuote) = False := by decide
@[simp] theorem chQ_ne_u : (chQuote = 'u') = False := by decide
@[simp] theorem chBS_ne_u : (chBackslash = 'u') = False := by decide
@[simp] theorem chQ_ne_bs : (chQuote = chBackslash) = False := by decide
@[simp] theorem b_ne_chQ : (('b' : Char) = chQuote) = False := by decide
@[simp] theorem b_ne_chBS : (('b' : Char) = chBackslash) = False := by decide
@[simp] theorem f_ne_chQ : (('f' : Char) = chQuote) = False := by decide
@[simp] theorem f_ne_chBS : (('f' : Char) = chBackslash) = False := by decide
@[simp] theorem n_ne_chQ : (('n' : Char) = chQuote) = False := by decide
@[simp] theorem n_ne_chBS : (('n' : Char) = chBackslash) = False := by decide
@[simp] theorem r_ne_chQ : (('r' : Char) = chQuote) = False := by decide
@[simp] theorem r_ne_chBS : (('r' : Char) = chBackslash) = False := by decide
@[simp] theorem t_ne_chQ : (('t' : Char) = chQuote) = False := by decide
@[simp] theorem t_ne_chBS : (('t' : Char) = chBackslash) = False := by decide

/-- The string-body parser inverts `json::quote` on every byte string; the
closing quote hands the continuation back. -/
theorem parseStringBody_quote (s : Str) :
    ∀ rest, parseStringBody (s.flatMap quoteChar ++ chQuote :: rest) = .ok (s, rest) := by
  induction s with
  | nil =>
    intro rest
    simp only [List.flatMap_nil, List.nil_append]
    unfold parseStringBody
    simp
  | cons c cs ih =>
    intro rest
    simp only [List.flatMap_cons, List.append_assoc]
    by_cases h1 : c = chQuote
    · subst h1
      rw [show quoteChar chQuote = [chBackslash, chQuote] from rfl]
      simp only [List.cons_append, List.nil_append]
      unfold parseStringBody
      simp [ih rest, bind, Except.bind]
    · by_cases h2 : c = chBackslash
      · subst h2
        rw [show quoteChar chBackslash = [chBackslash, chBackslash] from rfl]
        simp only [List.cons_append, List.nil_append]
        unfold parseStringBody
        simp [ih rest, bind, Except.bind]
      · by_cases h3 : c.toNat = 8
        · have hc : c = Char.ofNat 8 := by
            apply char_eq_of_toNat
            rw [h3, char_toNat_ofNat 8 (by omega)]
          subst hc
          rw [show quoteChar (Char.ofNat 8) = [chBackslash, 'b'] from rfl]
          simp only [List.cons_append, List.nil_append]
          unfold parseStringBody
          simp [ih rest, bind, Except.bind]
        · by_cases h4 : c.toNat = 12
          · have hc : c = Char.ofNat 12 := by
              apply char_eq_of_toNat
              rw [h4, char_toNat_ofNat 12 (by omega)]
            subst hc
            rw [show quoteChar (Char.ofNat 12) = [chBackslash, 'f'] from rfl]
            simp only [List.cons_append, List.nil_append]
            unfold parseStringBody
            simp [ih rest, bind, Except.bind]
          · by_cases h5 : c.toNat = 10
            · have hc : c = Char.ofNat 10 := by
                apply char_eq_of_toNat
                rw [h5, char_toNat_ofNat 10 (by omega)]
              subst hc
              rw [show quoteChar (Char.ofNat 10) = [chBackslash, 'n'] from rfl]
              simp only [List.cons_append, List.nil_append]
              unfold parseStringBody
              simp [ih rest, bind, Except.bind]
            · by_cases h6 : c.toNat = 13
              · have hc : c = Char.ofNat 13 := by
                  apply char_eq_of_toNat
                  rw [h6, char_toNat_ofNat 13 (by omega)]
                subst hc
                rw [show quoteChar (Char.ofNat 13) = [chBackslash, 'r'] from rfl]
                simp only [List.cons_append, List.nil_append]
                unfold parseStringBody
                simp [ih rest, bind, Except.bind]
              · by_cases h7 : c.toNat = 9
                · have hc : c = Char.ofNat 9 := by
                    apply char_eq_of_toNat
                    rw [h7, char_toNat_ofNat 9 (by omega)]
                  subst hc
                  rw [show quoteChar (Char.ofNat 9) = [chBackslash, 't'] from rfl]
                  simp only [List.cons_append, List.nil_append]
                  unfold parseStringBody
                  simp [ih rest, bind, Except.bind]
                · by_cases h8 : c.toNat < 32
                  · have hqc : quoteChar c = [chBackslash, 'u', '0', '0',
                        hexDigit (c.toNat / 16), hexDigit (c.toNat % 16)] := by
                      unfold quoteChar
                      rw [if_neg h1, if_neg h2, if_neg h3, if_neg h4, if_neg h5,
                        if_neg h6, if_neg h7, if_pos h8]
                    rw [hqc]
                    simp only [List.cons_append, List.nil_append]
                    unfold parseStringBody
                    simp [hexVal_hexDigit (c.toNat / 16) (by omega),
                      hexVal_hexDigit (c.toNat % 16) (by omega), ih rest, bind, Except.bind,
                      show hexVal '0' = some 0 from rfl]
                    rw [show c.toNat / 16 * 16 + c.toNat % 16 = c.toNat from by omega]
                    unfold utf8Enc
                    rw [if_pos (by omega : c.toNat < 0x80)]
                    rw [Char.ofNat_toNat]
                    rfl
                  · have hqc : quoteChar c = [c] := by
                      unfold quoteChar
                      rw [if_neg h1, if_neg h2, if_neg h3, if_neg h4, if_neg h5,
                        if_neg h6, if_neg h7, if_neg h8]
                    rw [hqc]
                    simp only [List.cons_append, List.nil_append]
                    unfold parseStringBody
                    rw [if_neg h1, if_pos h2]
                    simp [ih rest, bind, Except.bind]

/-- The byte-wise key order is asymmetric. -/
theorem strLt_asymm : ∀ a b : Str, strLt a b = true → strLt b a = false := by
  intro a
  induction a with
  | nil =>
    intro b h
    cases b with
    | nil => simp [strLt] at h
    | cons c cs => rfl
  | cons x xs ih =>
    intro b h
    cases b with
    | nil => simp [strLt] at h
    | cons y ys =>
      unfold strLt at h ⊢
      by_cases h1 : x.toNat < y.toNat
      · rw [if_neg (by omega), if_pos h1]
      · rw [if_neg h1] at h
        by_cases h2 : y.toNat < x.toNat
        · rw [if_pos h2] at h
          exact absurd h (by simp)
        · rw [if_neg h2] at h
          rw [if_neg h2, if_neg h1]
          exact ih ys h

/-- Inserting a key above every key of a sorted association list appends. -/
theorem mapInsert_append (k : Str) (v : Jval F) :
    ∀ acc : List (Str × Jval F), (∀ p ∈ acc, strLt p.1 k = true) →
      mapInsert k v acc = acc ++ [(k, v)] := by
  intro acc
  induction acc with
  | nil => intro h; rfl
  | cons p ps ih =>
    intro h
    have hp : strLt p.1 k = true := h p (List.mem_cons_self _ _)
    unfold mapInsert
    rw [if_neg (by rw [strLt_asymm p.1 k hp]; simp), if_pos hp]
    rw [ih (fun q hq => h q (List.mem_cons_of_mem p hq))]
    rfl

/-- The head byte of every compact serialization: never whitespace, never a
separator, never a closing delimiter. -/
theorem dump_head (isFin : F → Bool) (fp : F → Str) (rd : Str → Option F)
    (hc : FloatContract isFin fp rd) (v : Jval F) (hwf : WF isFin v) (d : Nat) :
    ∃ c cs, dumpImpl isFin fp (-1) d v = c :: cs ∧ isWsChar c = false ∧
      c ≠ ']' ∧ c ≠ chRBrace ∧ c ≠ ',' := by
  cases hwf with
  | null => exact ⟨'n', _, rfl, by decide, by decide, by decide, by decide⟩
  | bool b =>
    cases b with
    | true => exact ⟨'t', _, rfl, by decide, by decide, by decide, by decide⟩
    | false => exact ⟨'f', _, rfl, by decide, by decide, by decide, by decide⟩
  | int i h =>
    obtain ⟨c0, cs0, hnd, hh⟩ : ∃ c0 cs0, intDump i = c0 :: cs0 ∧
        (c0 = '-' ∨ isDigitB c0 = true) := by
      by_cases hi : i < 0
      · exact ⟨'-', natDump i.natAbs, by rw [intDump, if_pos hi], Or.inl rfl⟩
      · obtain ⟨c0, cs0, hnd⟩ := List.exists_cons_of_ne_nil (natDump_ne_nil i.natAbs)
        refine ⟨c0, cs0, by rw [intDump, if_neg hi]; exact hnd, Or.inr ?_⟩
        exact natDump_digits i.natAbs c0 (by rw [hnd]; exact List.mem_cons_self _ _)
    obtain ⟨hw, _, _, _, _, _, _, hr1, hr2, hr3⟩ := numHead_props c0 hh
    exact ⟨c0, cs0, by simpa [dumpImpl] using hnd, hw, hr1, hr2, hr3⟩
  | float f h =>
    obtain ⟨c0, cs0, hfp, hh⟩ := hc.head f h
    obtain ⟨hw, _, _, _, _, _, _, hr1, hr2, hr3⟩ := numHead_props c0 hh
    refine ⟨c0, cs0, ?_, hw, hr1, hr2, hr3⟩
    simpa [dumpImpl, h] using hfp
  | str s hbytes =>
    exact ⟨chQuote, _, rfl, by decide, by decide, by decide, by decide⟩
  | arr es hes =>
    cases es with
    | nil => exact ⟨'[', _, rfl, by decide, by decide, by decide, by decide⟩
    | cons e es2 => exact ⟨'[', _, rfl, by decide, by decide, by decide, by decide⟩
  | obj ms hsort hkeys hms =>
    cases ms with
    | nil => exact ⟨chLBrace, _, rfl, by decide, by decide, by decide, by decide⟩
    | cons m ms2 => exact ⟨chLBrace, _, rfl, by decide, by decide, by decide, by decide⟩

@[simp] theorem comma_ne_chRB : ((',' : Char) = chRBrace) = False := by decide
@[simp] theorem chQ_ne_chRB : (chQuote = chRBrace) = False := by decide
@[simp] theorem chQ_ne_chLB : (chQuote = chLBrace) = False := by decide

theorem okBind {α β : Type} (a : α) (f : α → Except PErr β) :
    (Except.ok a >>= f) = f a := rfl

theorem breakIndent_compact (d : Nat) : breakIndent (-1) d = [] := rfl

theorem parseNeed_pos (v : Jval F) : 1 ≤ parseNeed v := by
  cases v with
  | arr es => cases es <;> simp [parseNeed]
  | obj ms => cases ms <;> simp [parseNeed]
  | null => simp [parseNeed]
  | bool b => simp [parseNeed]
  | int i => simp [parseNeed]
  | float f => simp [parseNeed]
  | str s => simp [parseNeed]

theorem parseNeedElems_pos (es : List (Jval F)) : 1 ≤ parseNeedElems es := by
  cases es <;> simp [parseNeedElems]

theorem parseNeedMembers_pos (ms : List (Str × Jval F)) : 1 ≤ parseNeedMembers ms := by
  cases ms <;> simp [parseNeedMembers]

theorem intDump_head (i : Int) : ∃ c0 cs0, intDump i = c0 :: cs0 ∧
    (c0 = '-' ∨ isDigitB c0 = true) := by
  by_cases hi : i < 0
  · exact ⟨'-', natDump i.natAbs, by rw [intDump, if_pos hi], Or.inl rfl⟩
  · obtain ⟨c0, cs0, hnd⟩ := List.exists_cons_of_ne_nil (natDump_ne_nil i.natAbs)
    refine ⟨c0, cs0, by rw [intDump, if_neg hi]; exact hnd, Or.inr ?_⟩
    exact natDump_digits i.natAbs c0 (by rw [hnd]; exact List.mem_cons_self _ _)

theorem parseValue_enters_number (rd : Str → Option F) (f : Nat) (tk rest : Str)
    (c0 : Char) (cs0 : Str) (htk : tk = c0 :: cs0)
    (hh : c0 = '-' ∨ isDigitB c0 = true) :
    parseValue rd (f + 1) (tk ++ rest) = parseNumber rd (tk ++ rest) := by
  subst htk
  obtain ⟨hw, hq, hlb, hlk, ht, hf, hn, _, _, _⟩ := numHead_props c0 hh
  unfold parseValue
  simp only [List.cons_append, skipWs_cons_not c0 (cs0 ++ rest) hw]
  rw [if_neg hq, if_neg hlb, if_neg hlk, if_neg ht, if_neg hf, if_neg hn, if_pos hh]

theorem dumpMember_compact (isFin : F → Bool) (fp : F → Str) (d : Nat) (m : Str × Jval F) :
    dumpMember isFin fp (-1) d m =
      jquote m.1 ++ ':' :: dumpImpl isFin fp (-1) (d + 1) m.2 := by
  simp [dumpMember]

theorem dump_arr_cons (isFin : F → Bool) (fp : F → Str) (d : Nat) (e : Jval F)
    (es : List (Jval F)) :
    dumpImpl isFin fp (-1) d (.arr (e :: es)) =
      '[' :: (dumpImpl isFin fp (-1) (d + 1) e ++
        (dumpElemsRest isFin fp (-1) d es ++ [']'])) := by
  simp [dumpImpl, breakIndent_compact]

theorem dump_obj_cons (isFin : F → Bool) (fp : F → Str) (d : Nat) (m : Str × Jval F)
    (ms : List (Str × Jval F)) :
    dumpImpl isFin fp (-1) d (.obj (m :: ms)) =
      chLBrace :: (dumpMember isFin fp (-1) d m ++
        (dumpMembersRest isFin fp (-1) d ms ++ [chRBrace])) := by
  simp [dumpImpl, breakIndent_compact]

theorem dumpElemsRest_cons (isFin : F → Bool) (fp : F → Str) (d : Nat) (e : Jval F)
    (es : List (Jval F)) :
    dumpElemsRest isFin fp (-1) d (e :: es) =
      ',' :: (dumpImpl isFin fp (-1) (d + 1) e ++ dumpElemsRest isFin fp (-1) d es) := by
  simp [dumpElemsRest, breakIndent_compact]

theorem dumpMembersRest_cons (isFin : F → Bool) (fp : F → Str) (d : Nat)
    (m : Str × Jval F) (ms : List (Str × Jval F)) :
    dumpMembersRest isFin fp (-1) d (m :: ms) =
      ',' :: (dumpMember isFin fp (-1) d m ++ dumpMembersRest isFin fp (-1) d ms) := by
  simp [dumpMembersRest, breakIndent_compact]

theorem expectChar_cons (c : Char) (cs : Str) (h : isWsChar c = false) :
    expectChar c (c :: cs) = .ok cs := by
  unfold expectChar
  rw [skipWs_cons_not c cs h]
  simp

theorem parseStringVal_jquote (k rest : Str) :
    parseStringVal (jquote k ++ rest) = .ok (k, rest) := by
  have h : jquote k ++ rest = chQuote :: (k.flatMap quoteChar ++ chQuote :: rest) := by
    simp [jquote]
  rw [h]
  unfold parseStringVal
  rw [expectChar_cons chQuote _ (by decide), okBind]
  exact parseStringBody_quote k rest

theorem dumpElemsRest_nil (isFin : F → Bool) (fp : F → Str) (d : Nat) :
    dumpElemsRest isFin fp (-1) d [] = [] := rfl

theorem dumpMembersRest_nil (isFin : F → Bool) (fp : F → Str) (d : Nat) :
    dumpMembersRest isFin fp (-1) d [] = [] := rfl

theorem sizeOf_snd_le (x : Str × Jval F) : sizeOf x.2 ≤ sizeOf x := by
  obtain ⟨a, b⟩ := x
  simp

theorem parseValue_str (rd : Str → Option F) (f : Nat) (s rest : Str) :
    parseValue rd (f + 1) (chQuote :: (s.flatMap quoteChar ++ chQuote :: rest)) =
      .ok (.str s, rest) := by
  have h1 : parseValue rd (f + 1) (chQuote :: (s.flatMap quoteChar ++ chQuote :: rest)) =
      (do
        let (out, r) ← parseStringBody (s.flatMap quoteChar ++ chQuote :: rest)
        Except.ok (Jval.str out, r)) := rfl
  rw [h1, parseStringBody_quote, okBind]

theorem parseValue_dump (isFin : F → Bool) (fp : F → Str) (rd : Str → Option F)
    (hc : FloatContract isFin fp rd) :
    ∀ (N : Nat) (v : Jval F), sizeOf v ≤ N → WF isFin v →
      ∀ (d fuel : Nat) (rest : Str), parseNeed v ≤ fuel → RestOk rest →
        parseValue rd fuel (dumpImpl isFin fp (-1) d v ++ rest) = .ok (v, rest) := by
  intro N
  induction N with
  | zero =>
    intro v hsz
    exact absurd hsz (by cases v <;> simp)
  | succ N ih =>
    intro v hsz hwf d fuel rest hfuel hrest
    obtain ⟨f, rfl⟩ : ∃ f, fuel = f + 1 :=
      ⟨fuel - 1, by have := parseNeed_pos v; omega⟩
    cases hwf with
    | null => exact rfl
    | bool b => cases b <;> exact rfl
    | int i hfit =>
      obtain ⟨c0, cs0, hi, hh⟩ := intDump_head i
      have hd : dumpImpl isFin fp (-1) d (.int i) = intDump i := rfl
      rw [hd, parseValue_enters_number rd f (intDump i) rest c0 cs0 hi hh]
      exact parseNumber_intDump rd i rest hfit hrest
    | float g hfin =>
      obtain ⟨c0, cs0, hgp, hh⟩ := hc.head g hfin
      have hd : dumpImpl isFin fp (-1) d (.float g) = fp g := by
        simp [dumpImpl, hfin]
      rw [hd, parseValue_enters_number rd f (fp g) rest c0 cs0 hgp hh]
      exact hc.num g rest hfin hrest
    | str s hbytes =>
      have hd : dumpImpl isFin fp (-1) d (.str s) ++ rest =
          chQuote :: (s.flatMap quoteChar ++ chQuote :: rest) := by
        simp [dumpImpl, jquote]
      rw [hd]
      exact parseValue_str rd f s rest
    | arr es hes =>
      cases es with
      | nil => exact rfl
      | cons e es2 =>
        have hbig : sizeOf (Jval.arr (e :: es2)) ≤ N + 1 := hsz
        simp at hbig
        have hse : sizeOf e ≤ N := by omega
        have hses : ∀ x ∈ es2, sizeOf x ≤ N := by
          intro x hx
          have h1 := List.sizeOf_lt_of_mem hx
          omega
        have hwe : WF isFin e := hes e (List.mem_cons_self _ _)
        have hwes : ∀ x ∈ es2, WF isFin x := fun x hx => hes x (List.mem_cons_of_mem _ hx)
        have hpn : parseNeedElems (e :: es2) ≤ f := by
          simp [parseNeed] at hfuel
          omega
        obtain ⟨f2, rfl⟩ : ∃ f2, f = f2 + 1 :=
          ⟨f - 1, by have := parseNeedElems_pos (e :: es2); omega⟩
        have loopA : ∀ (L : List (Jval F)) (e0 : Jval F) (acc : List (Jval F))
            (f3 : Nat) (r2 : Str),
            sizeOf e0 ≤ N → WF isFin e0 → (∀ x ∈ L, sizeOf x ≤ N) →
            (∀ x ∈ L, WF isFin x) →
            parseNeedElems (e0 :: L) ≤ f3 + 1 → RestOk r2 →
            parseElems rd (f3 + 1) acc
              (dumpImpl isFin fp (-1) (d + 1) e0 ++
                (dumpElemsRest isFin fp (-1) d L ++ ']' :: r2))
              = .ok (.arr (acc ++ e0 :: L), r2) := by
          intro L
          induction L with
          | nil =>
            intro e0 acc f3 r2 hesz hewf _ _ hfl hr2
            have hpe : parseNeed e0 ≤ f3 := by
              simp only [parseNeedElems] at hfl
              omega
            unfold parseElems
            simp only [dumpElemsRest_nil, List.nil_append]
            rw [ih e0 hesz hewf (d + 1) f3 (']' :: r2) hpe
              (Or.inr ⟨']', r2, rfl, Or.inr (Or.inr rfl)⟩)]
            exact rfl
          | cons x L ihL =>
            intro e0 acc f3 r2 hesz hewf hLsz hLwf hfl hr2
            have hf1 : parseNeed e0 ≤ f3 ∧ parseNeedElems (x :: L) ≤ f3 := by
              simp only [parseNeedElems] at hfl ⊢
              omega
            obtain ⟨f4, rfl⟩ : ∃ f4, f3 = f4 + 1 :=
              ⟨f3 - 1, by have := parseNeedElems_pos (x :: L); omega⟩
            unfold parseElems
            rw [dumpElemsRest_cons]
            simp only [List.cons_append, List.append_assoc]
            rw [ih e0 hesz hewf (d + 1) (f4 + 1)
              (',' :: (dumpImpl isFin fp (-1) (d + 1) x ++
                (dumpElemsRest isFin fp (-1) d L ++ ']' :: r2)))
              hf1.1 (Or.inr ⟨',', _, rfl, Or.inl rfl⟩)]
            show parseElems rd (f4 + 1) (acc ++ [e0])
                (dumpImpl isFin fp (-1) (d + 1) x ++
                  (dumpElemsRest isFin fp (-1) d L ++ ']' :: r2))
                = Except.ok (Jval.arr (acc ++ e0 :: x :: L), r2)
            rw [ihL x (acc ++ [e0]) f4 r2 (hLsz x (List.mem_cons_self _ _))
              (hLwf x (List.mem_cons_self _ _))
              (fun y hy => hLsz y (List.mem_cons_of_mem _ hy))
              (fun y hy => hLwf y (List.mem_cons_of_mem _ hy))
              hf1.2 hr2]
            simp
        rw [dump_arr_cons]
        unfold parseValue
        simp only [List.cons_append, List.append_assoc, List.singleton_append,
          List.nil_append,
          skipWs_cons_not '['
            (dumpImpl isFin fp (-1) (d + 1) e ++
              (dumpElemsRest isFin fp (-1) d es2 ++ ']' :: rest)) (by decide)]
        rw [if_neg (show ('[' : Char) ≠ chQuote by decide),
          if_neg (show ('[' : Char) ≠ chLBrace by decide),
          if_pos trivial]
        obtain ⟨c1, cs1, hd1, hw1, hne1, _, _⟩ := dump_head isFin fp rd hc e hwe (d + 1)
        rw [hd1]
        simp only [List.cons_append,
          skipWs_cons_not c1
            (cs1 ++ (dumpElemsRest isFin fp (-1) d es2 ++ ']' :: rest)) hw1]
        split
        · next r heq =>
          injection heq with h1 h2
          exact absurd h1 hne1
        · next =>
          have hback : dumpImpl isFin fp (-1) (d + 1) e ++
              (dumpElemsRest isFin fp (-1) d es2 ++ ']' :: rest) =
              c1 :: (cs1 ++ (dumpElemsRest isFin fp (-1) d es2 ++ ']' :: rest)) := by
            rw [hd1]
            rfl
          rw [← hback, loopA es2 e [] f2 rest hse hwe hses hwes hpn hrest]
          simp
    | obj ms hsort hkeys hms =>
      cases ms with
      | nil => exact rfl
      | cons m ms2 =>
        have hbig : sizeOf (Jval.obj (m :: ms2)) ≤ N + 1 := hsz
        simp at hbig
        have hsm : sizeOf m.2 ≤ N := by
          have := sizeOf_snd_le m
          omega
        have hsms : ∀ x ∈ ms2, sizeOf x.2 ≤ N := by
          intro x hx
          have h1 := List.sizeOf_lt_of_mem hx
          have h2 := sizeOf_snd_le x
          omega
        have hwm : WF isFin m.2 := hms m (List.mem_cons_self _ _)
        have hwms : ∀ x ∈ ms2, WF isFin x.2 := fun x hx => hms x (List.mem_cons_of_mem _ hx)
        have hpn : parseNeedMembers (m :: ms2) ≤ f := by
          simp [parseNeed] at hfuel
          omega
        obtain ⟨f2, rfl⟩ : ∃ f2, f = f2 + 1 :=
          ⟨f - 1, by have := parseNeedMembers_pos (m :: ms2); omega⟩
        have loopO : ∀ (L : List (Str × Jval F)) (m0 : Str × Jval F)
            (acc : List (Str × Jval F)) (f3 : Nat) (r2 : Str),
            sizeOf m0.2 ≤ N → WF isFin m0.2 → (∀ x ∈ L, sizeOf x.2 ≤ N) →
            (∀ x ∈ L, WF isFin x.2) →
            (m0 :: L).Pairwise (fun a b => strLt a.1 b.1 = true) →
            (∀ p ∈ acc, ∀ q ∈ m0 :: L, strLt p.1 q.1 = true) →
            parseNeedMembers (m0 :: L) ≤ f3 + 1 → RestOk r2 →
            parseMembers rd (f3 + 1) acc
              (dumpMember isFin fp (-1) d m0 ++
                (dumpMembersRest isFin fp (-1) d L ++ chRBrace :: r2))
              = .ok (.obj (acc ++ m0 :: L), r2) := by
          intro L
          induction L with
          | nil =>
            intro m0 acc f3 r2 hmsz hmwf _ _ hpw hacc hfl hr2
            have hpe : parseNeed m0.2 ≤ f3 := by
              simp only [parseNeedMembers] at hfl
              omega
            unfold parseMembers
            rw [dumpMember_compact]
            simp only [dumpMembersRest_nil, List.nil_append, List.cons_append,
              List.append_assoc]
            rw [parseStringVal_jquote]
            simp only [okBind,
              expectChar_cons ':'
                (dumpImpl isFin fp (-1) (d + 1) m0.2 ++ chRBrace :: r2) (by decide)]
            rw [ih m0.2 hmsz hmwf (d + 1) f3 (chRBrace :: r2) hpe
              (Or.inr ⟨chRBrace, r2, rfl, Or.inr (Or.inl rfl)⟩)]
            show Except.ok (Jval.obj (mapInsert m0.1 m0.2 acc), r2) =
              Except.ok (Jval.obj (acc ++ [m0]), r2)
            rw [mapInsert_append m0.1 m0.2 acc
              (fun p hp => hacc p hp m0 (List.mem_cons_self _ _))]
          | cons x L ihL =>
            intro m0 acc f3 r2 hmsz hmwf hLsz hLwf hpw hacc hfl hr2
            have hf1 : parseNeed m0.2 ≤ f3 ∧ parseNeedMembers (x :: L) ≤ f3 := by
              simp only [parseNeedMembers] at hfl ⊢
              omega
            obtain ⟨f4, rfl⟩ : ∃ f4, f3 = f4 + 1 :=
              ⟨f3 - 1, by have := parseNeedMembers_pos (x :: L); omega⟩
            unfold parseMembers
            rw [dumpMembersRest_cons, dumpMember_compact]
            simp only [List.cons_append, List.append_assoc]
            rw [parseStringVal_jquote]
            simp only [okBind,
              expectChar_cons ':'
                (dumpImpl isFin fp (-1) (d + 1) m0.2 ++
                  ',' :: (dumpMember isFin fp (-1) d x ++
                    (dumpMembersRest isFin fp (-1) d L ++ chRBrace :: r2))) (by decide)]
            rw [ih m0.2 hmsz hmwf (d + 1) (f4 + 1)
              (',' :: (dumpMember isFin fp (-1) d x ++
                (dumpMembersRest isFin fp (-1) d L ++ chRBrace :: r2)))
              hf1.1 (Or.inr ⟨',', _, rfl, Or.inl rfl⟩)]
            show parseMembers rd (f4 + 1) (mapInsert m0.1 m0.2 acc)
                (dumpMember isFin fp (-1) d x ++
                  (dumpMembersRest isFin fp (-1) d L ++ chRBrace :: r2))
                = Except.ok (Jval.obj (acc ++ m0 :: x :: L), r2)
            have hmx : mapInsert m0.1 m0.2 acc = acc ++ [m0] := by
              rw [mapInsert_append m0.1 m0.2 acc
                (fun p hp => hacc p hp m0 (List.mem_cons_self _ _))]
            rw [hmx]
            have hpw2 := List.pairwise_cons.mp hpw
            rw [ihL x (acc ++ [m0]) f4 r2 (hLsz x (List.mem_cons_self _ _))
              (hLwf x (List.mem_cons_self _ _))
              (fun y hy => hLsz y (List.mem_cons_of_mem _ hy))
              (fun y hy => hLwf y (List.mem_cons_of_mem _ hy))
              hpw2.2
              (fun p hp q hq => by
                rcases List.mem_append.mp hp with hp1 | hp1
                · exact hacc p hp1 q (List.mem_cons_of_mem _ hq)
                · have hpm : p = m0 := by simpa using hp1
                  subst hpm
                  exact hpw2.1 q hq)
              hf1.2 hr2]
            simp
        rw [dump_obj_cons]
        unfold parseValue
        simp only [List.cons_append, List.append_assoc, List.singleton_append,
          List.nil_append,
          skipWs_cons_not chLBrace
            (dumpMember isFin fp (-1) d m ++
              (dumpMembersRest isFin fp (-1) d ms2 ++ chRBrace :: rest)) (by decide)]
        rw [if_neg (show chLBrace ≠ chQuote by decide),
          if_pos trivial]
        have hX : ∃ X, dumpMember isFin fp (-1) d m ++
            (dumpMembersRest isFin fp (-1) d ms2 ++ chRBrace :: rest) =
            chQuote :: X := by
          rw [dumpMember_compact]
          exact ⟨_, rfl⟩
        obtain ⟨X, hX⟩ := hX
        rw [hX]
        simp only [skipWs_cons_not chQuote X (by decide)]
        rw [if_neg (show chQuote ≠ chRBrace by decide), ← hX,
          loopO ms2 m [] f2 rest hsm hwm hsms hwms hsort
            (fun p hp => absurd hp (List.not_mem_nil p)) hpn hrest]
        simp

theorem parseNeed_le (isFin : F → Bool) (fp : F → Str) :
    ∀ (N : Nat) (v : Jval F), sizeOf v ≤ N → ∀ d : Nat,
      parseNeed v ≤ (dumpImpl isFin fp (-1) d v).length + 1 := by
  intro N
  induction N with
  | zero =>
    intro v hsz
    exact absurd hsz (by cases v <;> simp)
  | succ N ih =>
    intro v hsz d
    cases v with
    | null => simp [parseNeed]
    | bool b => simp [parseNeed]
    | int i => simp [parseNeed]
    | float g => simp [parseNeed]
    | str s => simp [parseNeed]
    | arr es =>
      cases es with
      | nil => simp [parseNeed]
      | cons e es2 =>
        have hbig : sizeOf (Jval.arr (e :: es2)) ≤ N + 1 := hsz
        simp at hbig
        have hse : sizeOf e ≤ N := by omega
        have hses : ∀ x ∈ es2, sizeOf x ≤ N := by
          intro x hx
          have h1 := List.sizeOf_lt_of_mem hx
          omega
        have loopB : ∀ L : List (Jval F), (∀ x ∈ L, sizeOf x ≤ N) →
            parseNeedElems L ≤ (dumpElemsRest isFin fp (-1) d L).length + 1 := by
          intro L
          induction L with
          | nil =>
            intro _
            simp [parseNeedElems, dumpElemsRest_nil]
          | cons x L ihL =>
            intro hL
            have h1 := ih x (hL x (List.mem_cons_self _ _)) (d + 1)
            have h2 := ihL (fun y hy => hL y (List.mem_cons_of_mem _ hy))
            rw [dumpElemsRest_cons]
            simp only [parseNeedElems, List.length_cons, List.length_append]
            omega
        have h1 := ih e hse (d + 1)
        have h2 := loopB es2 hses
        rw [dump_arr_cons]
        simp only [parseNeed, parseNeedElems, List.length_cons, List.length_append,
          List.length_nil]
        omega
    | obj ms =>
      cases ms with
      | nil => simp [parseNeed]
      | cons m ms2 =>
        have hbig : sizeOf (Jval.obj (m :: ms2)) ≤ N + 1 := hsz
        simp at hbig
        have hsm : sizeOf m.2 ≤ N := by
          have := sizeOf_snd_le m
          omega
        have hsms : ∀ x ∈ ms2, sizeOf x.2 ≤ N := by
          intro x hx
          have h1 := List.sizeOf_lt_of_mem hx
          have h2 := sizeOf_snd_le x
          omega
        have loopC : ∀ L : List (Str × Jval F), (∀ x ∈ L, sizeOf x.2 ≤ N) →
            parseNeedMembers L ≤ (dumpMembersRest isFin fp (-1) d L).length + 1 := by
          intro L
          induction L with
          | nil =>
            intro _
            simp [parseNeedMembers, dumpMembersRest_nil]
          | cons x L ihL =>
            intro hL
            have h1 := ih x.2 (hL x (List.mem_cons_self _ _)) (d + 1)
            have h2 := ihL (fun y hy => hL y (List.mem_cons_of_mem _ hy))
            rw [dumpMembersRest_cons, dumpMember_compact]
            simp only [parseNeedMembers, List.length_cons, List.length_append]
            omega
        have h1 := ih m.2 hsm (d + 1)
        have h2 := loopC ms2 hsms
        rw [dump_obj_cons, dumpMember_compact]
        simp only [parseNeed, parseNeedMembers, List.length_cons, List.length_append]
        omega

theorem jparse_dumpC (isFin : F → Bool) (fp : F → Str) (rd : Str → Option F)
    (hc : FloatContract isFin fp rd) (v : Jval F) (hwf : WF isFin v) :
    jparse rd (dumpC isFin fp v) = .ok v := by
  have hle := parseNeed_le isFin fp (sizeOf v) v le_rfl 0
  have hfuel : parseNeed v ≤ parseFuel (dumpImpl isFin fp (-1) 0 v) := by
    simp only [parseFuel]
    omega
  have h1 := parseValue_dump isFin fp rd hc (sizeOf v) v le_rfl hwf 0
    (parseFuel (dumpImpl isFin fp (-1) 0 v)) [] hfuel (Or.inl rfl)
  rw [List.append_nil] at h1
  unfold jparse dumpC
  rw [h1, okBind]
  rfl

/-- **C1.** Round trip of the value engine: for every constructible value whose
float components are finite, `parse (dump v)` succeeds and returns `v` itself
(hence the same kind classification and the same accessible contents); and
every document that is the byte-for-byte compact output of `dump` on such a
value parses back to a value whose dump equals the document. -/
theorem dump_parse_roundtrip (isFin : F → Bool) (fp : F → Str) (rd : Str → Option F)
    (hc : FloatContract isFin fp rd) :
    (∀ v : Jval F, WF isFin v → jparse rd (dumpC isFin fp v) = .ok v) ∧
    (∀ (doc : Str) (w : Jval F), WF isFin w → doc = dumpC isFin fp w →
      ∃ u : Jval F, jparse rd doc = .ok u ∧ dumpC isFin fp u = doc) := by
  constructor
  · exact fun v hwf => jparse_dumpC isFin fp rd hc v hwf
  · intro doc w hwf hdoc
    subst hdoc
    exact ⟨w, jparse_dumpC isFin fp rd hc w hwf, rfl⟩

/-- **C1, counterexample to the unrestricted claim.** A non-finite float is
constructible (`json(0.0/0.0)` compiles and stores the NaN), but `dump`
serializes it as `null`, so the round trip returns a value of a different
kind. -/
theorem roundtrip_nonfinite_counterexample :
    dumpC (fun _ : Unit => false) (fun _ => "0.5".data) (Jval.float ()) = "null".data ∧
    jparse (fun _ => some ()) (dumpC (fun _ : Unit => false) (fun _ => "0.5".data)
      (Jval.float ())) = .ok Jval.null ∧
    kindOf (Jval.null : Jval Unit) ≠ kindOf (Jval.float ()) :=
  ⟨rfl, rfl, by decide⟩

theorem strBytes_of_all (s : Str)
    (h : s.all (fun c => decide (c.toNat < 256)) = true) : strBytes s := by
  intro c hc
  have h2 := List.all_eq_true.mp h c hc
  simpa using h2

/-- Witness: the round trip at a concrete nested value, under a concrete
printer/reader pair satisfying the float contract. -/
theorem dump_parse_roundtrip_witness :
    jparse rdW (dumpC isFinW fpW vW) = Except.ok vW :=
  (dump_parse_roundtrip isFinW fpW rdW
    ⟨fun _ _ => ⟨'0', _, rfl, Or.inr rfl⟩,
     fun _ rest _ hrest => by
       rcases hrest with rfl | ⟨c, cs, rfl, h2⟩
       · rfl
       · rcases h2 with rfl | rfl | rfl <;> rfl⟩).1
    vW
    (by
      refine WF.obj _ (by decide) ?_ ?_
      · intro m hm
        simp only [List.mem_cons, List.not_mem_nil, or_false] at hm
        rcases hm with rfl | rfl
        · exact strBytes_of_all _ (by decide)
        · exact strBytes_of_all _ (by decide)
      · intro m hm
        simp only [List.mem_cons, List.not_mem_nil, or_false] at hm
        rcases hm with rfl | rfl
        · refine WF.arr _ ?_
          intro e he
          simp only [List.mem_cons, List.not_mem_nil, or_false] at he
          rcases he with rfl | rfl | rfl | rfl | rfl
          · exact WF.int 5 ⟨by decide, by decide⟩
          · exact WF.float () rfl
          · exact WF.str _ (strBytes_of_all _ (by decide))
          · exact WF.bool true
          · exact WF.null
        · exact WF.int (-3) ⟨by decide, by decide⟩)
